import Mathlib

/-!
# Verification of the web-editor-v2 core (locator / transaction / event subsystems)

Shallow embedding of the core of the `mcp-chrome` web-editor-v2 source:

* `core/locator.ts` — selector synthesis, element locators, resolution;
* `core/transaction-manager.ts` — style transactions, merge, undo/redo stacks;
* `core/event-controller.ts` — hover-mode pointer coalescing;
* `core/position-tracker.ts` — tracked rectangles and change filtering;
* `core/message-listener.ts` and `core/editor.ts` — START/STOP/PING responses.

Modelling conventions:
* JS strings are Lean `String`s over Unicode scalar values (UTF-16 surrogate
  pairs are idealized away; all inputs of interest are BMP text).
* JS `number` timestamps are `Int`, durations are `Nat`; the rectangle
  geometry of the position tracker uses `ℚ` (floats idealized as rationals).
* `Record<string, string>` objects are association lists that keep JS object
  insertion-order semantics (updating an existing key keeps its position).
* Browser DOM primitives (`querySelectorAll`, `shadowRoot`,
  `elementFromPoint`, `getBoundingClientRect`, `isConnected`) are not code of
  this repository; they are modelled either concretely (a document tree for
  the locator claims) or as an abstract environment structure.
* JS string helpers used by the source (`trim`, `split`, `startsWith`,
  `toLowerCase`, `join`) are re-implemented structurally on `List Char` so
  that all definitions evaluate by kernel reduction.
-/

namespace WebEditor

-- =============================================================================
-- JS string helpers (structural versions of the String operations the source uses)
-- =============================================================================

/-- JS `String.prototype.trim` (whitespace idealized as `Char.isWhitespace`). -/
def jsTrim (s : String) : String :=
  ⟨((s.data.dropWhile Char.isWhitespace).reverse.dropWhile Char.isWhitespace).reverse⟩

/-- Split a character list at every occurrence of `sep` (JS `split(sep)`). -/
def splitCharAux (sep : Char) : List Char → List (List Char)
  | [] => [[]]
  | c :: cs =>
    let r := splitCharAux sep cs
    if c == sep then [] :: r
    else
      match r with
      | g :: gs => (c :: g) :: gs
      | [] => [[c]]

/-- JS `String.prototype.split` with a one-character separator. -/
def jsSplit (sep : Char) (s : String) : List String :=
  (splitCharAux sep s.data).map (fun l => ⟨l⟩)

/-- JS `String.prototype.startsWith`. -/
def jsStartsWith (pre s : String) : Bool :=
  s.data.take pre.data.length == pre.data

/-- JS `String.prototype.toLowerCase` (ASCII case mapping, as used on CSS names). -/
def jsToLower (s : String) : String :=
  ⟨s.data.map Char.toLower⟩

/-- JS `Array.prototype.join(sep)`. -/
def jsJoin (sep : String) : List String → String
  | [] => ""
  | [x] => x
  | x :: xs => x ++ sep ++ jsJoin sep xs

/-- JS `String.prototype.includes(c)` for one character. -/
def jsContainsChar (s : String) (c : Char) : Bool :=
  s.data.contains c

-- =============================================================================
-- locator.ts: cssEscape (the CSSOM polyfill given in the source)
-- =============================================================================

/-- One Unicode scalar value treated as a JS code unit (BMP idealization). -/
def codeUnit (c : Char) : Nat := c.toNat

/-- Whether a code unit is ASCII alphanumeric (locator.ts `isAsciiAlnum`). -/
def isAsciiAlnumCU (cu : Nat) : Bool :=
  (0x30 ≤ cu && cu ≤ 0x39) || (0x41 ≤ cu && cu ≤ 0x5a) || (0x61 ≤ cu && cu ≤ 0x7a)

/-- `List.mapIdx`-style helper with explicit index, structural for kernel reduction. -/
def mapWithIndex (f : Nat → α → β) : Nat → List α → List β
  | _, [] => []
  | i, x :: xs => f i x :: mapWithIndex f (i + 1) xs

/-- locator.ts `cssEscape`: the spec-compliant CSS.escape polyfill. -/
def cssEscape (value : String) : String :=
  let str := value.data
  let len := str.length
  if len == 0 then ""
  else
    let firstCodeUnit := codeUnit (str.headD ' ')
    let pieces := mapWithIndex (fun i c =>
      let cu := codeUnit c
      if cu == 0 then "�"
      else if (1 ≤ cu && cu ≤ 0x1f) || cu == 0x7f ||
              (i == 0 && 0x30 ≤ cu && cu ≤ 0x39) ||
              (i == 1 && 0x30 ≤ cu && cu ≤ 0x39 && firstCodeUnit == 0x2d) then
        "\\" ++ ⟨Nat.toDigits 16 cu⟩ ++ " "
      else if i == 0 && len == 1 && cu == 0x2d then
        "\\" ++ c.toString
      else if isAsciiAlnumCU cu || cu == 0x2d || cu == 0x5f then
        c.toString
      else
        "\\" ++ c.toString) 0 str
    jsJoin "" pieces

-- =============================================================================
-- locator.ts: selectors as an inductive syntax
-- =============================================================================

/-!
The source builds selectors as strings and hands them to the browser's
`querySelectorAll`.  The selector *language* actually produced by the four
synthesis strategies is small, so selectors are embedded as an inductive type
whose `render` function produces exactly the strings the source builds, and
whose matching semantics (defined later against the document model) is the
standard CSS semantics of those strings.  The degenerate document-path
selector with no segments renders to `"body > "`, which is *invalid* CSS
(dangling combinator): `querySelectorAll` throws on it, which the source
catches and treats as "no match" / "not unique"; the model accordingly gives
it an empty match set.
-/

/-- One structural path segment: `tag` or `tag:nth-of-type(n)`. -/
structure Seg where
  tag : String
  nth : Option Nat
  deriving Repr, DecidableEq

/-- The selector forms produced by locator.ts strategies. -/
inductive Sel where
  /-- `#id` (tryIdSelector) -/
  | idSel (id : String)
  /-- `[attr="value"]` (tryDataAttrSelector, attribute alone) -/
  | attrOnly (attr val : String)
  /-- `tag[attr="value"]` (tryDataAttrSelector, with tag prefix) -/
  | tagAttr (tag attr val : String)
  /-- `.cls` (tryClassSelector, single class) -/
  | clsSingle (cls : String)
  /-- `tag.cls` (tryClassSelector, tag + class) -/
  | tagCls (tag cls : String)
  /-- `.c1.c2` (tryClassSelector, class pair) -/
  | clsPair (c1 c2 : String)
  /-- `body > seg > ... > seg` (buildPathSelector, document root);
      with no segments this is the invalid string `"body > "`. -/
  | pathDoc (segs : List Seg)
  /-- `seg > ... > seg` (buildPathSelector, shadow root); with no segments
      this is `"*"`. -/
  | pathShadow (segs : List Seg)
  deriving Repr, DecidableEq

/-- Render one path segment the way buildPathSelector builds it. -/
def Seg.render (sg : Seg) : String :=
  sg.tag ++
    match sg.nth with
    | none => ""
    | some n => ":nth-of-type(" ++ toString n ++ ")"

/-- Render a selector to the exact string the source builds. -/
def Sel.render : Sel → String
  | .idSel i => "#" ++ cssEscape i
  | .attrOnly a v => "[" ++ a ++ "=\"" ++ cssEscape v ++ "\"]"
  | .tagAttr t a v => t ++ "[" ++ a ++ "=\"" ++ cssEscape v ++ "\"]"
  | .clsSingle c => "." ++ cssEscape c
  | .tagCls t c => t ++ "." ++ cssEscape c
  | .clsPair c1 c2 => "." ++ cssEscape c1 ++ "." ++ cssEscape c2
  | .pathDoc segs => "body > " ++ jsJoin " > " (segs.map Seg.render)
  | .pathShadow segs =>
    let path := jsJoin " > " (segs.map Seg.render)
    if path == "" then "*" else path

-- =============================================================================
-- web-editor-types.ts: ElementLocator (selectors kept in inductive form)
-- =============================================================================

/-- ElementLocator (web-editor-types.ts); `debugSource` is never set by the
core and is omitted. -/
structure Locator where
  selectors : List Sel
  fingerprint : String
  path : List Nat
  frameChain : Option (List Sel) := none
  shadowHostChain : Option (List Sel) := none
  deriving Repr, DecidableEq

/-- locator.ts `locatorKey`. -/
def locatorKey (loc : Locator) : String :=
  let selectors := jsJoin "|" (loc.selectors.map Sel.render)
  let shadow :=
    match loc.shadowHostChain with
    | some c => jsJoin ">" (c.map Sel.render)
    | none => ""
  let frame :=
    match loc.frameChain with
    | some c => jsJoin ">" (c.map Sel.render)
    | none => ""
  "frame:" ++ frame ++ "|shadow:" ++ shadow ++ "|sel:" ++ selectors

-- =============================================================================
-- locator.ts: fingerprint verification (string-level, shared by both models)
-- =============================================================================

/-- locator.ts `verifyFingerprint`, on the current element's fingerprint
string and the stored fingerprint string. -/
def verifyFingerprintStr (currentFingerprint stored : String) : Bool :=
  let storedParts := jsSplit '|' stored
  let currentParts := jsSplit '|' currentFingerprint
  if storedParts.head? != currentParts.head? then false
  else
    let storedId := storedParts.find? (fun p => jsStartsWith "id=" p)
    let currentId := currentParts.find? (fun p => jsStartsWith "id=" p)
    match storedId with
    | some sid => currentId == some sid
    | none => true

-- =============================================================================
-- Abstract DOM environment (browser primitives used by locateElement)
-- =============================================================================

/-!
`locateElement` only consumes the browser through `querySelectorAll` (via
`safeQuerySelector` / `isSelectorUnique`), `shadowRoot`, iframe
`contentDocument`, and `computeFingerprint` of a resolved element.  These are
captured in an environment structure: `R` is the type of query roots
(documents and shadow roots), `E` the type of elements.  `querySelector` is
`querySelectorAll`'s first result.  Invalid selectors (which make the real
`querySelectorAll` throw, caught by the source) are modelled by an empty
result list — observationally identical through `safeQuerySelector` (null)
and `isSelectorUnique` (false).  `contentDocOf` returns a document only for
iframe elements with an accessible `contentDocument`, folding the
`instanceof HTMLIFrameElement` check of the source.
-/

structure DomEnv (R E : Type) where
  selectAll : R → Sel → List E
  shadowRootOf : E → Option R
  contentDocOf : E → Option R
  fingerprintOf : E → String

variable {R E : Type}

/-- locator.ts `safeQuerySelector`. -/
def safeQS (env : DomEnv R E) (r : R) (s : Sel) : Option E :=
  (env.selectAll r s).head?

/-- locator.ts `isSelectorUnique` / `isUnique`. -/
def isSelUnique (env : DomEnv R E) (r : R) (s : Sel) : Bool :=
  (env.selectAll r s).length == 1

/-- The iframe-chain loop at the top of `locateElement`. -/
def frameResolve (env : DomEnv R E) : R → List Sel → Option R
  | d, [] => some d
  | d, s :: rest =>
    match safeQS env d s with
    | none => none
    | some frame =>
      match env.contentDocOf frame with
      | none => none
      | some contentDoc => frameResolve env contentDoc rest

/-- The shadow-host-chain loop of `locateElement`: each hop requires the host
selector to be unique in the current query root and the host to expose a
shadow root. -/
def chainResolve (env : DomEnv R E) : R → List Sel → Option R
  | r, [] => some r
  | r, s :: rest =>
    if isSelUnique env r s then
      match safeQS env r s with
      | none => none
      | some host =>
        match env.shadowRootOf host with
        | none => none
        | some shadowRoot => chainResolve env shadowRoot rest
    else none

/-- The candidate loop at the end of `locateElement`: first selector that is
unique, non-empty, and fingerprint-consistent wins. -/
def tryCandidates (env : DomEnv R E) (queryRoot : R) (fingerprint : String) :
    List Sel → Option E
  | [] => none
  | s :: rest =>
    if isSelUnique env queryRoot s then
      match safeQS env queryRoot s with
      | none => tryCandidates env queryRoot fingerprint rest
      | some element =>
        if fingerprint != "" &&
            !verifyFingerprintStr (env.fingerprintOf element) fingerprint then
          tryCandidates env queryRoot fingerprint rest
        else some element
    else tryCandidates env queryRoot fingerprint rest

/-- locator.ts `locateElement`.  (`frameChain?.length` / `shadowHostChain?.length`
treat an absent chain and an empty chain identically, as the source's truthy
length check does: `frameResolve`/`chainResolve` on `[]` are the identity.) -/
def locateElement (env : DomEnv R E) (rootDocument : R) (loc : Locator) : Option E :=
  let doc? :=
    match loc.frameChain with
    | none => some rootDocument
    | some chain => frameResolve env rootDocument chain
  match doc? with
  | none => none
  | some doc =>
    let queryRoot? :=
      match loc.shadowHostChain with
      | none => some doc
      | some chain => chainResolve env doc chain
    match queryRoot? with
    | none => none
    | some queryRoot => tryCandidates env queryRoot loc.fingerprint loc.selectors

-- =============================================================================
-- Concrete document model (for selector synthesis and structural paths)
-- =============================================================================

/-!
A concrete document for the locator-synthesis claims: a finite set of element
positions (index paths from the document's root element, in document order)
with per-element data.  `[]` is the root element (`html`); `p ++ [i]` is the
`i`-th element child of `p`.  This models a plain HTML document without
shadow trees or iframes — exactly the setting of the synthesis claims; the
shadow-chain claim uses the abstract environment above.
-/

/-- The data of one element: tag name (lowercase), raw `id` attribute, class
list, other attributes, and normalized-relevant text content. -/
structure ElemData where
  tag : String
  idAttr : String := ""
  classes : List String := []
  attrs : List (String × String) := []
  text : String := ""
  deriving Repr, DecidableEq

/-- An element position: child-index path from the document root element. -/
abbrev Pos := List Nat

/-- A document: element positions with their data, in document (pre)order. -/
structure Doc where
  elems : List (Pos × ElemData)
  deriving Repr, DecidableEq

/-- All element positions of the document. -/
def Doc.keys (d : Doc) : List Pos := d.elems.map Prod.fst

/-- Element data at a position. -/
def dataAt (d : Doc) (p : Pos) : Option ElemData :=
  (d.elems.find? (fun pr => pr.1 == p)).map Prod.snd

/-- Whether a position is an element of the document. -/
def hasPos (d : Doc) (p : Pos) : Bool := (dataAt d p).isSome

/-- Tag name at a position (empty string off-document). -/
def tagAt (d : Doc) (p : Pos) : String :=
  match dataAt d p with
  | some dt => dt.tag
  | none => ""

/-- Raw `id` attribute at a position (empty string off-document). -/
def idAt (d : Doc) (p : Pos) : String :=
  match dataAt d p with
  | some dt => dt.idAttr
  | none => ""

/-- `getAttribute` at a position. -/
def attrAt (d : Doc) (p : Pos) (a : String) : Option String :=
  match dataAt d p with
  | some dt => (dt.attrs.find? (fun pr => pr.1 == a)).map Prod.snd
  | none => none

/-- The element children of position `q`, in index order (`element.children`,
also `document.children` for `q = []`'s parent handled separately). -/
def childrenPos (d : Doc) (q : Pos) : List Pos :=
  (List.range d.elems.length).filterMap
    (fun i => if hasPos d (q ++ [i]) then some (q ++ [i]) else none)

/-- The sibling element list of position `p` (the root's sibling list within
the document node is just the root itself). -/
def siblingsOf (d : Doc) (p : Pos) : List Pos :=
  if p.isEmpty then [([] : Pos)] else childrenPos d p.dropLast

/-- Document well-formedness: distinct positions, parents present, and child
indices contiguous from 0 — the shape every real DOM tree has. -/
def docWF (d : Doc) : Bool :=
  decide (d.keys.Nodup) &&
  d.keys.all (fun p =>
    p.isEmpty ||
    (hasPos d p.dropLast &&
      (List.range (p.getLastD 0)).all (fun j => hasPos d (p.dropLast ++ [j]))))

-- =============================================================================
-- CSS matching semantics over the concrete document
-- =============================================================================

/-- JS `Array.prototype.indexOf` for element positions (the source's
reference-identity `indexOf` is position identity in this model). -/
def idxOfPos (p : Pos) : List Pos → Nat
  | [] => 0
  | q :: rest => if q = p then 0 else idxOfPos p rest + 1

/-- Whether the element at `p` matches one path segment
(`tag` / `tag:nth-of-type(n)`). `:nth-of-type(n)` counts the element's
position among its same-tag siblings, 1-based. -/
def matchesSeg (d : Doc) (p : Pos) (sg : Seg) : Bool :=
  match dataAt d p with
  | none => false
  | some dt =>
    dt.tag == sg.tag &&
      match sg.nth with
      | none => true
      | some n =>
        let sameTag := (siblingsOf d p).filter (fun q => tagAt d q == sg.tag)
        idxOfPos p sameTag + 1 == n

/-- Child-combinator chain matching, innermost segment first: the element
matches the head segment and its parent chain matches the rest contiguously. -/
def matchesRev (d : Doc) : Pos → List Seg → Bool
  | _, [] => true
  | p, sg :: rest =>
    matchesSeg d p sg &&
      match rest with
      | [] => true
      | _ :: _ => !p.isEmpty && matchesRev d p.dropLast rest

/-- Whether the element at `p` matches a selector (browser CSS semantics for
the selector forms the source produces).  `pathDoc []` is the invalid string
`"body > "`: it matches nothing (`querySelectorAll` throws; the source's
try/catch turns that into no-match). -/
def matchesSel (d : Doc) (p : Pos) : Sel → Bool
  | .idSel i =>
    (match dataAt d p with
     | some dt => dt.idAttr == i
     | none => false)
  | .attrOnly a v => attrAt d p a == some v
  | .tagAttr t a v => tagAt d p == t && attrAt d p a == some v
  | .clsSingle c =>
    (match dataAt d p with
     | some dt => dt.classes.contains c
     | none => false)
  | .tagCls t c =>
    (match dataAt d p with
     | some dt => dt.tag == t && dt.classes.contains c
     | none => false)
  | .clsPair c1 c2 =>
    (match dataAt d p with
     | some dt => dt.classes.contains c1 && dt.classes.contains c2
     | none => false)
  | .pathDoc segs =>
    if segs.isEmpty then false
    else matchesRev d p ((Seg.mk "body" none :: segs).reverse)
  | .pathShadow segs =>
    if segs.isEmpty then hasPos d p
    else matchesRev d p segs.reverse

/-- `querySelectorAll` over the concrete document (document order). -/
def docSelectAll (d : Doc) (s : Sel) : List Pos :=
  d.keys.filter (fun p => matchesSel d p s)

/-- locator.ts `isUnique` over the concrete document. -/
def docIsUnique (d : Doc) (s : Sel) : Bool :=
  (docSelectAll d s).length == 1

-- =============================================================================
-- locator.ts: selector generation strategies over the concrete document
-- =============================================================================

/-- locator.ts `tryIdSelector`. -/
def tryIdSelector (d : Doc) (p : Pos) : Option Sel :=
  match dataAt d p with
  | none => none
  | some dt =>
    let id := jsTrim dt.idAttr
    if id == "" then none
    else
      let selector := Sel.idSel id
      if docIsUnique d selector then some selector else none

/-- locator.ts `UNIQUE_DATA_ATTRS`. -/
def UNIQUE_DATA_ATTRS : List String :=
  ["data-testid", "data-test-id", "data-test", "data-qa", "data-cy",
   "name", "title", "alt"]

/-- locator.ts `tryDataAttrSelector` (attribute alone, then tag+attribute,
first unique hit wins). -/
def tryDataAttrSelector (d : Doc) (p : Pos) : Option Sel :=
  match dataAt d p with
  | none => none
  | some dt =>
    let tag := dt.tag
    let rec go : List String → Option Sel
      | [] => none
      | attr :: rest =>
        let value := (attrAt d p attr).map jsTrim
        match value with
        | none => go rest
        | some v =>
          if v == "" then go rest
          else
            let attrOnly := Sel.attrOnly attr v
            if docIsUnique d attrOnly then some attrOnly
            else
              let withTag := Sel.tagAttr tag attr v
              if docIsUnique d withTag then some withTag
              else go rest
    go UNIQUE_DATA_ATTRS

/-- The class-name filter regex `/^[a-zA-Z_][a-zA-Z0-9_-]*$/` of
`tryClassSelector`. -/
def validClassName (c : String) : Bool :=
  match c.data with
  | [] => false
  | h :: t =>
    (h.isAlpha || h == '_') &&
      t.all (fun ch => ch.isAlphanum || ch == '_' || ch == '-')

/-- locator.ts `MAX_CLASS_COMBO_DEPTH`. -/
def MAX_CLASS_COMBO_DEPTH : Nat := 3

/-- First `some` produced by `f` over a list (the pattern of the `for` loops
with early `return` in tryClassSelector). -/
def firstSome (f : α → Option β) : List α → Option β
  | [] => none
  | x :: xs =>
    match f x with
    | some y => some y
    | none => firstSome f xs

/-- The nested pair loop of tryClassSelector: `.ci.cj` for `i < j < limit`. -/
def classPairs (classes : List String) (limit : Nat) : List (String × String) :=
  (List.range limit).flatMap (fun i =>
    (List.range limit).filterMap (fun j =>
      if i < j then
        match classes.get? i, classes.get? j with
        | some ci, some cj => some (ci, cj)
        | _, _ => none
      else none))

/-- locator.ts `tryClassSelector`. -/
def tryClassSelector (d : Doc) (p : Pos) : Option Sel :=
  match dataAt d p with
  | none => none
  | some dt =>
    let tag := dt.tag
    let classes := dt.classes.filter validClassName
    if classes.isEmpty then none
    else
      let single := firstSome (fun c =>
        let sel := Sel.clsSingle c
        if docIsUnique d sel then some sel else none) classes
      match single with
      | some s => some s
      | none =>
        let tagged := firstSome (fun c =>
          let sel := Sel.tagCls tag c
          if docIsUnique d sel then some sel else none) classes
        match tagged with
        | some s => some s
        | none =>
          let limit := min classes.length MAX_CLASS_COMBO_DEPTH
          firstSome (fun pr =>
            let sel := Sel.clsPair pr.1 pr.2
            if docIsUnique d sel then some sel else none) (classPairs classes limit)

-- =============================================================================
-- locator.ts: buildPathSelector over the concrete document
-- =============================================================================

/-- The segment buildPathSelector produces for the element at `p`:
its tag, plus `:nth-of-type(index+1)` when more than one same-tag sibling
exists (`indexOf` on the same-tag sibling list is position identity here,
matching the source's reference identity). -/
def segFor (d : Doc) (p : Pos) : Seg :=
  let tag := tagAt d p
  let sameTagSiblings := (siblingsOf d p).filter (fun q => tagAt d q == tag)
  if sameTagSiblings.length > 1 then
    Seg.mk tag (some (idxOfPos p sameTagSiblings + 1))
  else
    Seg.mk tag none

/-- The upward while-loop of buildPathSelector over a *document* root,
walking the reversed position (innermost index first) and stopping at a
`body` tag or at the document root element; returns the collected segments
innermost-first (the source's `unshift` builds the same list outermost-first). -/
def upSegs (d : Doc) : List Nat → List Seg
  | [] =>
    if tagAt d [] == "body" then [] else [segFor d []]
  | i :: rest =>
    let p := (i :: rest).reverse
    if tagAt d p == "body" then []
    else segFor d p :: upSegs d rest

/-- locator.ts `buildPathSelector` for a document query root. For the `body`
element itself the loop exits immediately and the result is the invalid
selector string `"body > "` (`pathDoc []`). -/
def buildPathSelector (d : Doc) (p : Pos) : Sel :=
  Sel.pathDoc (upSegs d p.reverse).reverse

-- =============================================================================
-- locator.ts: fingerprints, candidates, and locators over the concrete document
-- =============================================================================

/-- locator.ts `FINGERPRINT_TEXT_MAX_LENGTH` / `FINGERPRINT_MAX_CLASSES`. -/
def FINGERPRINT_TEXT_MAX_LENGTH : Nat := 32
def FINGERPRINT_MAX_CLASSES : Nat := 8

/-- locator.ts `normalizeText`: collapse whitespace runs to single spaces,
trim, truncate. -/
def normalizeText (text : String) (maxLength : Nat) : String :=
  ⟨(jsJoin " " ((text.data.splitOnP Char.isWhitespace).map (fun l => (⟨l⟩ : String))
      |>.filter (fun w => w != ""))).data.take maxLength⟩

/-- locator.ts `computeFingerprint` (on element data). -/
def computeFingerprint (dt : ElemData) : String :=
  let parts : List String := [dt.tag]
  let parts := parts ++ (if jsTrim dt.idAttr != "" then ["id=" ++ jsTrim dt.idAttr] else [])
  let classes := dt.classes.take FINGERPRINT_MAX_CLASSES
  let parts := parts ++ (if classes.isEmpty then [] else ["class=" ++ jsJoin "." classes])
  let text := normalizeText dt.text FINGERPRINT_TEXT_MAX_LENGTH
  let parts := parts ++ (if text != "" then ["text=" ++ text] else [])
  jsJoin "|" parts

/-- locator.ts `DEFAULT_MAX_CANDIDATES`. -/
def DEFAULT_MAX_CANDIDATES : Nat := 5

/-- The `push` closure of `generateSelectorCandidates`: skip `null`, skip
duplicates (string comparison on rendered selectors, as the source compares
the strings it stores). -/
def pushCand (candidates : List Sel) : Option Sel → List Sel
  | none => candidates
  | some sel =>
    if (candidates.map (fun c => c.render)).contains sel.render then candidates
    else candidates ++ [sel]

/-- locator.ts `generateSelectorCandidates` (document query root,
default options). -/
def generateSelectorCandidates (d : Doc) (p : Pos) : List Sel :=
  let candidates := pushCand [] (tryIdSelector d p)
  let candidates := pushCand candidates (tryDataAttrSelector d p)
  let candidates := pushCand candidates (tryClassSelector d p)
  let candidates := pushCand candidates (some (buildPathSelector d p))
  candidates.take DEFAULT_MAX_CANDIDATES

/-- locator.ts `computeDomPath`: the child-index path from the root — which
is the position itself in this model (the source recomputes each index with
`indexOf` over the parent's children, which is the corresponding coordinate). -/
def computeDomPath (_d : Doc) (p : Pos) : List Nat := p

/-- locator.ts `createElementLocator` for an element of a plain document
(`getRootNode` is the document, so `getShadowHostChain` finds no shadow
boundary and yields `undefined`; `frameChain` is never produced). -/
def createElementLocator (d : Doc) (p : Pos) : Locator where
  selectors := generateSelectorCandidates d p
  fingerprint :=
    match dataAt d p with
    | some dt => computeFingerprint dt
    | none => ""
  path := computeDomPath d p
  frameChain := none
  shadowHostChain := none

/-- The concrete document as a `DomEnv`: one query root (the document), no
shadow roots, no iframes; `fingerprintOf` is `computeFingerprint` of the
element's current data. -/
def docEnv (d : Doc) : DomEnv Unit Pos where
  selectAll := fun _ s => docSelectAll d s
  shadowRootOf := fun _ => none
  contentDocOf := fun _ => none
  fingerprintOf := fun p =>
    match dataAt d p with
    | some dt => computeFingerprint dt
    | none => ""

/-- `locateElement` against the concrete document. -/
def docLocateElement (d : Doc) (loc : Locator) : Option Pos :=
  locateElement (docEnv d) () loc

-- =============================================================================
-- transaction-manager.ts: style helpers
-- =============================================================================

/-- transaction-manager.ts `normalizePropertyName`: trim; keep custom
properties; lowercase kebab-case; camelCase → kebab-case. -/
def normalizePropertyName (property : String) : String :=
  let p := jsTrim property
  if p == "" then ""
  else if jsStartsWith "--" p then p
  else if jsContainsChar p '-' then jsToLower p
  else
    jsToLower ⟨p.data.flatMap (fun c =>
      if c.isUpper then ['-', c.toLower] else [c])⟩

/-- A JS `Record<string, string>`: association list with object-key
semantics (updating an existing key keeps its position; a new key appends). -/
abbrev StyleMap := List (String × String)

/-- Object property read `styles[prop]`. -/
def mapGet (m : StyleMap) (k : String) : Option String :=
  (m.find? (fun pr => pr.1 == k)).map Prod.snd

/-- Object property write `styles[prop] = v`. -/
def mapSet (m : StyleMap) (k v : String) : StyleMap :=
  if (m.map Prod.fst).contains k then
    m.map (fun pr => if pr.1 == k then (k, v) else pr)
  else m ++ [(k, v)]

/-- Object property delete (`style.removeProperty`). -/
def mapRemove (m : StyleMap) (k : String) : StyleMap :=
  m.filter (fun pr => pr.1 != k)

/-- transaction-manager.ts `readStyleValue` against an inline-style map. -/
def readStyleValue (style : StyleMap) (property : String) : String :=
  let prop := normalizePropertyName property
  if prop == "" then ""
  else jsTrim ((mapGet style prop).getD "")

/-- transaction-manager.ts `writeStyleValue` against an inline-style map. -/
def writeStyleValue (style : StyleMap) (property value : String) : StyleMap :=
  let prop := normalizePropertyName property
  if prop == "" then style
  else
    let v := jsTrim value
    if v == "" then mapRemove style prop else mapSet style prop v

-- =============================================================================
-- web-editor-types.ts / transaction-manager.ts: transactions
-- =============================================================================

/-- web-editor-types.ts `TransactionType`. -/
inductive TxType where
  | style | text | move | struct
  deriving Repr, DecidableEq

/-- web-editor-types.ts `TransactionSnapshot` (`html`/`text` never populated
by the style path and omitted). -/
structure Snapshot where
  locator : Locator
  styles : Option StyleMap := none
  deriving Repr, DecidableEq

/-- web-editor-types.ts `Transaction` (style path: `moveData`/`structureData`
never populated and omitted). -/
structure Tx where
  id : String
  type : TxType
  targetLocator : Locator
  before : Snapshot
  after : Snapshot
  timestamp : Int
  merged : Bool
  deriving Repr, DecidableEq

/-- transaction-manager.ts `createStyleTransaction`. -/
def createStyleTransaction (id : String) (locator : Locator) (property beforeValue afterValue : String)
    (timestamp : Int) : Tx :=
  let prop := normalizePropertyName property
  { id := id
    type := .style
    targetLocator := locator
    before := { locator := locator, styles := some [(prop, beforeValue)] }
    after := { locator := locator, styles := some [(prop, afterValue)] }
    timestamp := timestamp
    merged := false }

/-- Key list of an optional styles record. -/
def styleKeys (s : Option StyleMap) : List String :=
  (s.getD []).map Prod.fst

/-- First-occurrence deduplication (JS `Set` insertion order). -/
def setDedupAux (seen : List String) : List String → List String
  | [] => []
  | k :: rest =>
    if seen.contains k then setDedupAux seen rest
    else k :: setDedupAux (k :: seen) rest

/-- `Array.from(new Set(keys))`. -/
def setDedup (keys : List String) : List String := setDedupAux [] keys

/-- transaction-manager.ts `getSingleStyleProperty`: the union of before/after
style keys (a JS `Set` keeps first occurrences), when it is a single key. -/
def getSingleStyleProperty (tx : Tx) : Option String :=
  let keys := setDedup (styleKeys tx.before.styles ++ styleKeys tx.after.styles)
  match keys with
  | [k] => some k
  | _ => none

/-- transaction-manager.ts `canMerge`.  (The source's final truthiness check
`!prevProp || !nextProp || prevProp !== nextProp` also rejects the empty
property name, hence the explicit `≠ ""` tests.) -/
def canMerge (prev next : Tx) (mergeWindowMs : Nat) : Bool :=
  (prev.type == .style && next.type == .style) &&
  ((next.timestamp - prev.timestamp).natAbs ≤ mergeWindowMs) &&
  (locatorKey prev.targetLocator == locatorKey next.targetLocator) &&
  (match getSingleStyleProperty prev, getSingleStyleProperty next with
   | some prevProp, some nextProp =>
     prevProp != "" && nextProp != "" && prevProp == nextProp
   | _, _ => false)

/-- transaction-manager.ts `mergeInto` (the in-place mutation of `prev`
rendered functionally: `some` is the mutated transaction, `none` is the
source's `return false`). -/
def mergeInto (prev next : Tx) : Option Tx :=
  match getSingleStyleProperty prev with
  | none => none
  | some prop =>
    if prop == "" then none
    else
      match (match next.after.styles with
             | none => none
             | some m => mapGet m prop) with
      | none => none
      | some nextValue =>
        some { prev with
          after := { prev.after with
            styles := some (mapSet (prev.after.styles.getD []) prop nextValue) }
          timestamp := next.timestamp
          merged := true }

-- =============================================================================
-- transaction-manager.ts: the manager state machine
-- =============================================================================

/-- The undo/redo stacks (most-recent-last, as in the source arrays). -/
structure TMState where
  undoStack : List Tx := []
  redoStack : List Tx := []
  deriving Repr, DecidableEq

/-- transaction-manager.ts configuration after normalization
(`Math.max(1, maxHistory ?? 100)`, `Math.max(0, mergeWindowMs ?? 800)`). -/
structure TMConfig where
  maxHistory : Nat := 100
  mergeWindowMs : Nat := 800

/-- `Math.max(1, ...)` applied to the raw `maxHistory` option. -/
def normMaxHistory (raw : Nat) : Nat := max 1 raw

/-- transaction-manager.ts `enforceMaxHistory`: drop the oldest entries
(front of the array) beyond the cap. -/
def enforceMaxHistory (maxHistory : Nat) (undoStack : List Tx) : List Tx :=
  if undoStack.length > maxHistory then
    undoStack.drop (undoStack.length - maxHistory)
  else undoStack

/-- transaction-manager.ts `pushTransaction`: clear redo on new action, try
to merge into the top of the undo stack, otherwise push and enforce the cap. -/
def pushTransaction (cfg : TMConfig) (st : TMState) (tx : Tx) (allowMerge : Bool) : TMState :=
  let hadRedo := !st.redoStack.isEmpty
  let st := if hadRedo then { st with redoStack := [] } else st
  let merged? :=
    if !hadRedo && allowMerge && !st.undoStack.isEmpty then
      match st.undoStack.getLast? with
      | some last =>
        if canMerge last tx cfg.mergeWindowMs then
          match mergeInto last tx with
          | some mergedTx => some { st with undoStack := st.undoStack.dropLast ++ [mergedTx] }
          | none => none
        else none
      | none => none
    else none
  match merged? with
  | some st' => st'
  | none =>
    { st with undoStack := enforceMaxHistory cfg.maxHistory (st.undoStack ++ [tx]) }

/-- transaction-manager.ts `recordStyle` (`id`/`timestamp` are the values the
source draws from `generateTransactionId`/`now()`). -/
def recordStyle (cfg : TMConfig) (st : TMState) (locator : Locator)
    (property beforeValue afterValue : String) (mergeOpt : Bool)
    (id : String) (timestamp : Int) : Option Tx × TMState :=
  let prop := normalizePropertyName property
  if prop == "" then (none, st)
  else
    let before := jsTrim beforeValue
    let after := jsTrim afterValue
    if before == after then (none, st)
    else
      let tx := createStyleTransaction id locator prop before after timestamp
      (some tx, pushTransaction cfg st tx mergeOpt)

/-- The data captured by a `beginStyle` handle: the normalized property and
the before-value read from the live inline style at begin time. -/
structure StyleHandle where
  id : String
  property : String
  targetLocator : Locator
  beforeValue : String
  deriving Repr, DecidableEq

/-- transaction-manager.ts `beginStyle` against an element's inline-style
map (`getInlineStyle` succeeds for any HTML element, modelled as a map). -/
def beginStyle (inlineStyle : StyleMap) (locator : Locator) (property : String)
    (id : String) : Option StyleHandle :=
  let prop := normalizePropertyName property
  if prop == "" then none
  else some { id := id, property := prop, targetLocator := locator,
              beforeValue := readStyleValue inlineStyle prop }

/-- The handle's `set(value)` live-preview write. -/
def handleSet (inlineStyle : StyleMap) (h : StyleHandle) (value : String) : StyleMap :=
  writeStyleValue inlineStyle h.property value

/-- The handle's `commit()`: read the after-value from the current inline
style; a no-op edit yields `none` and records nothing. -/
def handleCommit (cfg : TMConfig) (st : TMState) (inlineStyle : StyleMap)
    (h : StyleHandle) (mergeOpt : Bool) (timestamp : Int) : Option Tx × TMState :=
  let afterValue := readStyleValue inlineStyle h.property
  if afterValue == h.beforeValue then (none, st)
  else
    let tx := createStyleTransaction h.id h.targetLocator h.property h.beforeValue
      afterValue timestamp
    (some tx, pushTransaction cfg st tx mergeOpt)

-- =============================================================================
-- transaction-manager.ts: undo / redo with resolution through a DomEnv
-- =============================================================================

/-- One inline-style write performed by `applyStylesSnapshot` (`value = none`
is `removeProperty`). -/
structure StyleWrite (E : Type) where
  element : E
  property : String
  value : Option String
  deriving Repr, DecidableEq

/-- transaction-manager.ts `applyStylesSnapshot`: the writes it performs on
the resolved element, in record order. -/
def snapshotWrites (element : E) (styles : Option StyleMap) : List (StyleWrite E) :=
  (styles.getD []).filterMap (fun pr =>
    let prop := normalizePropertyName pr.1
    if prop == "" then none
    else
      let v := jsTrim pr.2
      some { element := element, property := prop,
             value := if v == "" then none else some v })

/-- Outcome of an `undo()` / `redo()` call: returned transaction, resulting
stacks, style writes performed, and `onApplyError` invocations. -/
structure StepOutcome (E : Type) where
  result : Option Tx
  state : TMState
  writes : List (StyleWrite E)
  errors : Nat
  deriving Repr, DecidableEq

/-- transaction-manager.ts `undo`: pop, re-resolve the locator, revert the
pop on failure, otherwise apply the before-snapshot and move the transaction
to the redo stack.  (`applyTransaction` returns true without resolving for
non-style transactions.) -/
def tmUndo (env : DomEnv R E) (rootDocument : R) (st : TMState) : StepOutcome E :=
  match st.undoStack.getLast? with
  | none => { result := none, state := st, writes := [], errors := 0 }
  | some tx =>
    let rest := st.undoStack.dropLast
    if tx.type == .style then
      match locateElement env rootDocument tx.targetLocator with
      | none =>
        { result := none, state := { st with undoStack := rest ++ [tx] },
          writes := [], errors := 1 }
      | some target =>
        { result := some tx
          state := { undoStack := rest, redoStack := st.redoStack ++ [tx] }
          writes := snapshotWrites target tx.before.styles
          errors := 0 }
    else
      { result := some tx
        state := { undoStack := rest, redoStack := st.redoStack ++ [tx] }
        writes := []
        errors := 0 }

/-- transaction-manager.ts `redo`: symmetric to `undo`, applying the
after-snapshot and enforcing the history cap after the push. -/
def tmRedo (cfg : TMConfig) (env : DomEnv R E) (rootDocument : R) (st : TMState) :
    StepOutcome E :=
  match st.redoStack.getLast? with
  | none => { result := none, state := st, writes := [], errors := 0 }
  | some tx =>
    let rest := st.redoStack.dropLast
    if tx.type == .style then
      match locateElement env rootDocument tx.targetLocator with
      | none =>
        { result := none, state := { st with redoStack := rest ++ [tx] },
          writes := [], errors := 1 }
      | some target =>
        { result := some tx
          state := { undoStack := enforceMaxHistory cfg.maxHistory (st.undoStack ++ [tx])
                     redoStack := rest }
          writes := snapshotWrites target tx.after.styles
          errors := 0 }
    else
      { result := some tx
        state := { undoStack := enforceMaxHistory cfg.maxHistory (st.undoStack ++ [tx])
                   redoStack := rest }
        writes := []
        errors := 0 }

/-- transaction-manager.ts `clear`. -/
def tmClear (_st : TMState) : TMState := {}

/-- The operations a caller can perform on the manager's stacks. -/
inductive TMOp where
  | push (tx : Tx) (allowMerge : Bool)
  | undo
  | redo
  | clear
  deriving Repr

/-- Run one operation (stack effect only). -/
def runOp (cfg : TMConfig) (env : DomEnv R E) (rootDocument : R) (st : TMState) :
    TMOp → TMState
  | .push tx allowMerge => pushTransaction cfg st tx allowMerge
  | .undo => (tmUndo env rootDocument st).state
  | .redo => (tmRedo cfg env rootDocument st).state
  | .clear => tmClear st

/-- Run a sequence of operations from a state. -/
def runOps (cfg : TMConfig) (env : DomEnv R E) (rootDocument : R) :
    TMState → List TMOp → TMState
  | st, [] => st
  | st, op :: rest => runOps cfg env rootDocument (runOp cfg env rootDocument st op) rest

-- =============================================================================
-- event-controller.ts: hover mode, rAF-coalesced hit-testing
-- =============================================================================

/-- event-controller.ts `EventControllerMode`. -/
inductive CtlMode where
  | hover | selecting
  deriving Repr, DecidableEq

/-- The browser primitives the hover path consumes:
`document.elementFromPoint` and the overlay classification predicate. -/
structure CtlEnv (E : Type) where
  elementFromPoint : Int → Int → Option E
  isOverlayElement : E → Bool

/-- event-controller.ts `getTargetElementAtFast` (coordinates are integers in
the model, so the `Number.isFinite` guard always passes). -/
def getTargetElementAtFast (env : CtlEnv E) (clientX clientY : Int) : Option E :=
  match env.elementFromPoint clientX clientY with
  | none => none
  | some element => if env.isOverlayElement element then none else some element

/-- The controller state the hover path touches. `hoverPending = some force`
models a scheduled `requestAnimationFrame` callback carrying the
`forceUpdate` flag captured by `scheduleHoverUpdate`. -/
structure CtlState (E : Type) where
  mode : CtlMode := .hover
  lastHoveredElement : Option E := none
  hasPointerPosition : Bool := false
  lastClientX : Int := 0
  lastClientY : Int := 0
  hoverPending : Option Bool := none
  deriving Repr, DecidableEq

/-- Observable outputs of the hover path: `onHover` callbacks and performed
hit-tests (`elementFromPoint` calls). -/
inductive CtlOut (E : Type) where
  | hoverCb (element : Option E)
  | hitTest
  deriving Repr, DecidableEq

/-- event-controller.ts `scheduleHoverUpdate`: at most one pending rAF; a
second request while pending is dropped (keeping the captured force flag). -/
def scheduleHoverUpdate (st : CtlState E) (forceUpdate : Bool) : CtlState E :=
  match st.hoverPending with
  | some _ => st
  | none => { st with hoverPending := some forceUpdate }

/-- event-controller.ts `commitHoverUpdate`, run by the rAF callback: clear
the pending token, hit-test at the last pointer position, and fire `onHover`
only if the element changed or the update was forced. -/
def commitHoverUpdate [DecidableEq E] (env : CtlEnv E) (st : CtlState E) (forceUpdate : Bool) :
    CtlState E × List (CtlOut E) :=
  let st := { st with hoverPending := none }
  if st.mode != .hover then (st, [])
  else if !st.hasPointerPosition then (st, [])
  else
    let nextElement := getTargetElementAtFast env st.lastClientX st.lastClientY
    if !forceUpdate && nextElement == st.lastHoveredElement then
      (st, [CtlOut.hitTest])
    else
      ({ st with lastHoveredElement := nextElement },
       [CtlOut.hitTest, CtlOut.hoverCb nextElement])

/-- Hover-path input events: a pointer move (with its editor-UI
classification, per `isEventFromEditorUi`) and the next paint cycle firing
the pending rAF callback, if any. -/
inductive CtlEv where
  | move (clientX clientY : Int) (fromUi : Bool)
  | frame
  deriving Repr, DecidableEq

/-- event-controller.ts `handlePointerMove` (hover-relevant part: the
editor-UI branch clears the highlight immediately; otherwise the position is
recorded and a hover update is scheduled while in hover mode). -/
def handlePointerMove [DecidableEq E] (st : CtlState E) (clientX clientY : Int) (fromUi : Bool) :
    CtlState E × List (CtlOut E) :=
  if fromUi then
    if st.mode == .hover && st.lastHoveredElement != none then
      ({ st with lastHoveredElement := none }, [CtlOut.hoverCb none])
    else (st, [])
  else
    let st := { st with lastClientX := clientX, lastClientY := clientY,
                        hasPointerPosition := true }
    if st.mode != .hover then (st, [])
    else (scheduleHoverUpdate st false, [])

/-- One hover-path step: process an input event. A paint cycle with no
pending rAF does nothing. -/
def ctlStep [DecidableEq E] (env : CtlEnv E) (st : CtlState E) : CtlEv → CtlState E × List (CtlOut E)
  | .move x y fromUi => handlePointerMove st x y fromUi
  | .frame =>
    match st.hoverPending with
    | none => (st, [])
    | some forceUpdate => commitHoverUpdate env st forceUpdate

/-- Run a sequence of hover-path events, collecting outputs. -/
def ctlRun [DecidableEq E] (env : CtlEnv E) : CtlState E → List CtlEv → CtlState E × List (CtlOut E)
  | st, [] => (st, [])
  | st, ev :: rest =>
    let (st', outs) := ctlStep env st ev
    let (st'', outs') := ctlRun env st' rest
    (st'', outs ++ outs')

-- =============================================================================
-- position-tracker.ts: tracked rectangles
-- =============================================================================

/-- canvas-overlay.ts `ViewportRect` (float coordinates idealized as ℚ). -/
structure VRect where
  left : ℚ
  top : ℚ
  width : ℚ
  height : ℚ
  deriving Repr, DecidableEq

/-- position-tracker.ts `TrackedRects`. -/
structure TrackedRects where
  hover : Option VRect := none
  selection : Option VRect := none
  deriving Repr, DecidableEq

/-- position-tracker.ts `RECT_EPSILON`. -/
def RECT_EPSILON : ℚ := 1 / 2

/-- position-tracker.ts `approximatelyEqual`. -/
def approximatelyEqual (a b : ℚ) : Bool := |a - b| < RECT_EPSILON

/-- position-tracker.ts `rectApproximatelyEqual` (the `a === b` reference
shortcut covers the both-null case; otherwise a null on one side differs). -/
def rectApproximatelyEqual : Option VRect → Option VRect → Bool
  | none, none => true
  | some a, some b =>
    approximatelyEqual a.left b.left && approximatelyEqual a.top b.top &&
    approximatelyEqual a.width b.width && approximatelyEqual a.height b.height
  | _, _ => false

/-- position-tracker.ts `trackedRectsEqual`. -/
def trackedRectsEqual (a b : TrackedRects) : Bool :=
  rectApproximatelyEqual a.hover b.hover && rectApproximatelyEqual a.selection b.selection

/-- The browser primitives the tracker consumes: connectivity and bounding
rectangles (in ℚ, so the `Number.isFinite` guards of `toViewportRect` always
pass). -/
structure TrkEnv (E : Type) where
  isConnected : E → Bool
  boundingRect : E → VRect

/-- position-tracker.ts `toViewportRect`: clamp dimensions to non-negative. -/
def toViewportRect (r : VRect) : VRect :=
  { r with width := max 0 r.width, height := max 0 r.height }

/-- The tracker state the geometry path touches. -/
structure TrkState (E : Type) where
  hoverElement : Option E := none
  selectionElement : Option E := none
  lastRects : TrackedRects := {}
  deriving Repr, DecidableEq

/-- position-tracker.ts `resolveConnected`. -/
def resolveConnected (env : TrkEnv E) : Option E → Option E
  | none => none
  | some element => if env.isConnected element then some element else none

/-- position-tracker.ts `readElementRect`. -/
def readElementRect (env : TrkEnv E) : Option E → Option VRect
  | none => none
  | some element => some (toViewportRect (env.boundingRect element))

/-- position-tracker.ts `computeRects`: resolve both slots, clear stale
references, read rectangles (once if both slots are the same element). -/
def computeRects [DecidableEq E] (env : TrkEnv E) (st : TrkState E) :
    TrackedRects × TrkState E :=
  let resolvedHover := resolveConnected env st.hoverElement
  let resolvedSelection := resolveConnected env st.selectionElement
  let st := { st with
    hoverElement := if st.hoverElement.isSome && resolvedHover.isNone then none
                    else st.hoverElement
    selectionElement := if st.selectionElement.isSome && resolvedSelection.isNone then none
                        else st.selectionElement }
  match resolvedHover, resolvedSelection with
  | some h, some s =>
    if h = s then
      let rect := readElementRect env (some h)
      ({ hover := rect, selection := rect }, st)
    else
      ({ hover := readElementRect env (some h),
         selection := readElementRect env (some s) }, st)
  | rh, rs =>
    ({ hover := readElementRect env rh, selection := readElementRect env rs }, st)

/-- position-tracker.ts `updateIfChanged`: recompute, drop stale references,
and emit only when the rectangles changed beyond the tolerance. -/
def updateIfChanged [DecidableEq E] (env : TrkEnv E) (st : TrkState E) :
    TrkState E × Option TrackedRects :=
  let (nextRects, st') := computeRects env st
  if trackedRectsEqual nextRects st'.lastRects then (st', none)
  else ({ st' with lastRects := nextRects }, some nextRects)

/-- position-tracker.ts `forceUpdate`: cancel any pending rAF and update
synchronously (the pending token is not part of the geometry state here;
cancellation has no geometric effect). -/
def forceUpdate [DecidableEq E] (env : TrkEnv E) (st : TrkState E) :
    TrkState E × Option TrackedRects :=
  updateIfChanged env st

-- =============================================================================
-- editor.ts / message-listener.ts: START / STOP / PING responses
-- =============================================================================

/-- editor.ts internal state, reduced to the `active` flag (the only field
the message responses consult; subsystems are abstracted by the `initFails`
parameter of `editorStart`). -/
structure EditorState where
  active : Bool := false
  deriving Repr, DecidableEq

/-- editor.ts `start`: no-op when already active; otherwise initialization
either succeeds (`active := true`) or throws midway (`initFails`), in which
case the catch block unwinds every subsystem and leaves `active := false`. -/
def editorStart (initFails : Bool) (st : EditorState) : EditorState :=
  if st.active then st
  else if initFails then { active := false }
  else { active := true }

/-- editor.ts `stop`: no-op when inactive, otherwise deactivates. -/
def editorStop (st : EditorState) : EditorState :=
  if !st.active then st else { active := false }

/-- message-listener.ts `WEB_EDITOR_V2_ACTIONS` request kinds. -/
inductive EditorRequest where
  | ping | toggle | start | stop
  deriving Repr, DecidableEq

/-- The `active` field of the response each branch of
`installMessageListener` sends, together with the state after delegating to
the api. PING reports `api.getState().active`; TOGGLE reports `api.toggle()`'s
return value; START and STOP respond with literal `true` / `false`. -/
def handleRequest (initFails : Bool) (st : EditorState) :
    EditorRequest → Bool × EditorState
  | .ping => (st.active, st)
  | .toggle =>
    let st' := if st.active then editorStop st else editorStart initFails st
    (st'.active, st')
  | .start => (true, editorStart initFails st)
  | .stop => (false, editorStop st)

-- =============================================================================
-- Statement-level helpers and concrete fixtures
-- =============================================================================

/-- The `onHover` callbacks among a list of hover-path outputs. -/
def hoverOutputs (outs : List (CtlOut E)) : List (CtlOut E) :=
  outs.filter (fun o => match o with | .hoverCb _ => true | .hitTest => false)

/-- The number of hit-tests among a list of hover-path outputs. -/
def hitTestCount (outs : List (CtlOut E)) : Nat :=
  (outs.filter (fun o => match o with | .hitTest => true | .hoverCb _ => false)).length

/-- A rectangle slot "differs beyond the sub-pixel tolerance" from another:
some component is at least `RECT_EPSILON` away, or exactly one side is null. -/
def rectDiffers : Option VRect → Option VRect → Prop
  | none, none => False
  | some a, some b =>
    RECT_EPSILON ≤ |a.left - b.left| ∨ RECT_EPSILON ≤ |a.top - b.top| ∨
    RECT_EPSILON ≤ |a.width - b.width| ∨ RECT_EPSILON ≤ |a.height - b.height|
  | _, _ => True

/-- A minimal well-formed HTML document: `html > body > div`, no ids, no
classes, no attributes. -/
def exDocC7 : Doc :=
  { elems := [([], { tag := "html" }), ([0], { tag := "body" }),
              ([0, 0], { tag := "div" })] }

/-- A well-formed document `html > body > button#go` with a unique id. -/
def exDocC5 : Doc :=
  { elems := [([], { tag := "html" }), ([0], { tag := "body" }),
              ([0, 0], { tag := "button", idAttr := "go", text := "Go" })] }

/-- A concrete locator used by witnesses. -/
def exLoc : Locator :=
  { selectors := [Sel.idSel "x"], fingerprint := "", path := [] }

/-- A concrete style handle used by witnesses. -/
def exHandle : StyleHandle :=
  { id := "h1", property := "color", targetLocator := exLoc, beforeValue := "" }

/-- A degenerate browser environment (every query returns nothing). -/
def emptyEnv : DomEnv Unit Unit :=
  { selectAll := fun _ _ => []
    shadowRootOf := fun _ => none
    contentDocOf := fun _ => none
    fingerprintOf := fun _ => "" }

/-- A one-element browser environment in which every selector resolves. -/
def fullEnv : DomEnv Unit Unit :=
  { selectAll := fun _ _ => [()]
    shadowRootOf := fun _ => none
    contentDocOf := fun _ => none
    fingerprintOf := fun _ => "" }

/-- A concrete committed style transaction used by witnesses. -/
def exTx : Tx := createStyleTransaction "t" exLoc "color" "red" "blue" 0

/-- A browser environment in which every selector matches two elements
(never unique). -/
def twoEnv : DomEnv Unit Unit :=
  { selectAll := fun _ _ => [(), ()]
    shadowRootOf := fun _ => none
    contentDocOf := fun _ => none
    fingerprintOf := fun _ => "" }

/-- A locator with a one-hop shadow host chain, used by witnesses. -/
def exLocShadow : Locator :=
  { selectors := [Sel.idSel "x"], fingerprint := "", path := [],
    shadowHostChain := some [Sel.idSel "host"] }

/-- A hover environment with two page elements: element 1 under x = 1,
element 2 elsewhere. -/
def exCtlEnv : CtlEnv Nat :=
  { elementFromPoint := fun x _ => if x = 1 then some 1 else some 2
    isOverlayElement := fun _ => false }

/-- A hover-mode controller state currently reporting element 1. -/
def exCtlSt : CtlState Nat :=
  { mode := .hover, lastHoveredElement := some 1, hasPointerPosition := true,
    lastClientX := 1, lastClientY := 0, hoverPending := none }

/-- A tracker environment in which every element is detached. -/
def exTrkEnv : TrkEnv Nat :=
  { isConnected := fun _ => false
    boundingRect := fun _ => { left := 0, top := 0, width := 0, height := 0 } }

/-- A tracker state with a tracked hover element and a previously emitted
hover rectangle. -/
def exTrkSt : TrkState Nat :=
  { hoverElement := some 1, selectionElement := none,
    lastRects := { hover := some { left := 0, top := 0, width := 10, height := 10 },
                   selection := none } }

-- =============================================================================
-- Theorems
-- =============================================================================

/-- C10: the background message listener's START response reports
`active = true` and the STOP response reports `active = false`
unconditionally; when `start()` fails during initialization (catching the
error and leaving the editor inactive), the START response still claims
`active = true` while a subsequent PING reports `active = false`. -/
theorem C10_start_stop_response_constant :
    (∀ (initFails : Bool) (st : EditorState),
      (handleRequest initFails st .start).1 = true ∧
      (handleRequest initFails st .stop).1 = false) ∧
    (handleRequest true { active := false } .start).1 = true ∧
    (handleRequest true { active := false } .start).2.active = false ∧
    (handleRequest true ((handleRequest true { active := false } .start).2) .ping).1 = false := by
  exact ⟨fun _ _ => ⟨rfl, rfl⟩, rfl, rfl, rfl⟩

/-- C4: a style transaction whose before-value equals its after-value after
trimming commits to `none` and leaves the undo stack untouched, on both the
`recordStyle` path and the handle `commit()` path. -/
theorem C4_noop_edit_not_recorded :
    (∀ (cfg : TMConfig) (st : TMState) (locator : Locator)
       (property beforeValue afterValue : String) (mergeOpt : Bool)
       (id : String) (timestamp : Int),
      jsTrim beforeValue = jsTrim afterValue →
      recordStyle cfg st locator property beforeValue afterValue mergeOpt id timestamp
        = (none, st)) ∧
    (∀ (cfg : TMConfig) (st : TMState) (inlineStyle : StyleMap) (h : StyleHandle)
       (mergeOpt : Bool) (timestamp : Int),
      readStyleValue inlineStyle h.property = h.beforeValue →
      handleCommit cfg st inlineStyle h mergeOpt timestamp = (none, st)) := by
  constructor
  · intro cfg st locator property beforeValue afterValue mergeOpt id timestamp hEq
    unfold recordStyle
    by_cases hp : normalizePropertyName property = ""
    · simp [hp]
    · simp [hp, hEq]
  · intro cfg st inlineStyle h mergeOpt timestamp hEq
    unfold handleCommit
    simp [hEq]

/-- Witness for C4 at concrete inputs. -/
theorem C4_noop_edit_not_recorded_witness :
    recordStyle {} {} exLoc "color" " red " "red" true "tx1" 0 = (none, {}) ∧
    handleCommit {} {} [] exHandle true 0 = (none, {}) :=
  ⟨C4_noop_edit_not_recorded.1 {} {} exLoc "color" " red " "red" true "tx1" 0 (by decide),
   C4_noop_edit_not_recorded.2 {} {} [] exHandle true 0 (by decide)⟩

/-- C2: when the popped transaction's locator fails to resolve, `undo()`
(resp. `redo()`) pushes it back unchanged, returns none, performs no style
write, and reports exactly one error — both stacks end exactly as they were. -/
theorem C2_unresolvable_pop_reverted :
    (∀ (R E : Type) (env : DomEnv R E) (rootDocument : R) (st : TMState)
       (us : List Tx) (tx : Tx),
      st.undoStack = us ++ [tx] → tx.type = .style →
      locateElement env rootDocument tx.targetLocator = none →
      tmUndo env rootDocument st
        = { result := none, state := st, writes := [], errors := 1 }) ∧
    (∀ (R E : Type) (cfg : TMConfig) (env : DomEnv R E) (rootDocument : R)
       (st : TMState) (rs : List Tx) (tx : Tx),
      st.redoStack = rs ++ [tx] → tx.type = .style →
      locateElement env rootDocument tx.targetLocator = none →
      tmRedo cfg env rootDocument st
        = { result := none, state := st, writes := [], errors := 1 }) := by
  constructor
  · intro R E env rootDocument st us tx hst hty hloc
    have h1 : st.undoStack.getLast? = some tx := by
      rw [hst]; exact List.getLast?_concat _
    have h2 : st.undoStack.dropLast = us := by
      rw [hst]; exact List.dropLast_concat
    simp only [tmUndo, h1, h2, hty, hloc, beq_self_eq_true, if_true]
    rw [← hst]
  · intro R E cfg env rootDocument st rs tx hst hty hloc
    have h1 : st.redoStack.getLast? = some tx := by
      rw [hst]; exact List.getLast?_concat _
    have h2 : st.redoStack.dropLast = rs := by
      rw [hst]; exact List.dropLast_concat
    simp only [tmRedo, h1, h2, hty, hloc, beq_self_eq_true, if_true]
    rw [← hst]

/-- Witness for C2 at concrete inputs. -/
theorem C2_unresolvable_pop_reverted_witness :
    tmUndo emptyEnv ()
        { undoStack := [createStyleTransaction "t" exLoc "color" "red" "blue" 0] }
      = { result := none,
          state := { undoStack := [createStyleTransaction "t" exLoc "color" "red" "blue" 0] },
          writes := [], errors := 1 } ∧
    tmRedo {} emptyEnv ()
        { redoStack := [createStyleTransaction "t" exLoc "color" "red" "blue" 0] }
      = { result := none,
          state := { redoStack := [createStyleTransaction "t" exLoc "color" "red" "blue" 0] },
          writes := [], errors := 1 } :=
  ⟨C2_unresolvable_pop_reverted.1 Unit Unit emptyEnv () _ [] _ rfl rfl (by decide),
   C2_unresolvable_pop_reverted.2 Unit Unit {} emptyEnv () _ [] _ rfl rfl (by decide)⟩

/-- A transaction built by `createStyleTransaction` touches exactly its one
normalized property. -/
theorem getSingle_createStyleTransaction (id : String) (loc : Locator)
    (p b a : String) (ts : Int) :
    getSingleStyleProperty (createStyleTransaction id loc p b a ts)
      = some (normalizePropertyName p) := by
  simp [getSingleStyleProperty, createStyleTransaction, styleKeys, setDedup, setDedupAux]

theorem createStyle_type (id : String) (loc : Locator) (p b a : String) (ts : Int) :
    (createStyleTransaction id loc p b a ts).type = TxType.style := rfl

theorem createStyle_targetLocator (id : String) (loc : Locator) (p b a : String) (ts : Int) :
    (createStyleTransaction id loc p b a ts).targetLocator = loc := rfl

theorem createStyle_timestamp (id : String) (loc : Locator) (p b a : String) (ts : Int) :
    (createStyleTransaction id loc p b a ts).timestamp = ts := rfl

theorem createStyle_afterStyles (id : String) (loc : Locator) (p b a : String) (ts : Int) :
    (createStyleTransaction id loc p b a ts).after.styles
      = some [(normalizePropertyName p, a)] := rfl

/-- With a positive cap, pushing then enforcing the cap keeps the new entry
as the most-recent one. -/
theorem enforceMaxHistory_getLast (m : Nat) (hm : 1 ≤ m) (l : List Tx) (tx : Tx) :
    (enforceMaxHistory m (l ++ [tx])).getLast? = some tx := by
  unfold enforceMaxHistory
  by_cases h : (l ++ [tx]).length > m
  · have hk : (l ++ [tx]).length - m ≤ l.length := by
      simp only [List.length_append, List.length_singleton]
      omega
    rw [if_pos h, List.drop_append_of_le_length hk, List.getLast?_concat]
  · rw [if_neg h, List.getLast?_concat]

/-- C1: two committed style transactions with equal locator keys, the same
single normalized property, timestamps within the merge window, pushed with
merging permitted while the redo stack is empty: the second rewrites the top
undo entry in place — keeping the first's before-value, taking the second's
after-value and timestamp, and setting the merged flag.  A different
property, a different locator key, or a gap beyond the window pushes a new
entry instead. -/
theorem C1_style_merge_window :
    ∀ (cfg : TMConfig) (us : List Tx) (id1 id2 : String) (loc1 loc2 : Locator)
      (p1 p2 b1 a1 b2 a2 : String) (ts1 ts2 : Int),
      normalizePropertyName p1 ≠ "" →
      ((normalizePropertyName p1 = normalizePropertyName p2 ∧
        locatorKey loc1 = locatorKey loc2 ∧
        (ts2 - ts1).natAbs ≤ cfg.mergeWindowMs) →
        pushTransaction cfg
            { undoStack := us ++ [createStyleTransaction id1 loc1 p1 b1 a1 ts1],
              redoStack := [] }
            (createStyleTransaction id2 loc2 p2 b2 a2 ts2) true
          = { undoStack :=
                us ++ [{ createStyleTransaction id1 loc1 p1 b1 a2 ts2 with merged := true }],
              redoStack := [] }) ∧
      ((normalizePropertyName p1 ≠ normalizePropertyName p2 ∨
        locatorKey loc1 ≠ locatorKey loc2 ∨
        cfg.mergeWindowMs < (ts2 - ts1).natAbs) →
        pushTransaction cfg
            { undoStack := us ++ [createStyleTransaction id1 loc1 p1 b1 a1 ts1],
              redoStack := [] }
            (createStyleTransaction id2 loc2 p2 b2 a2 ts2) true
          = { undoStack :=
                enforceMaxHistory cfg.maxHistory
                  (us ++ [createStyleTransaction id1 loc1 p1 b1 a1 ts1,
                          createStyleTransaction id2 loc2 p2 b2 a2 ts2]),
              redoStack := [] }) := by
  intro cfg us id1 id2 loc1 loc2 p1 p2 b1 a1 b2 a2 ts1 ts2 hne
  constructor
  · rintro ⟨hp, hl, hw⟩
    have hcm : canMerge (createStyleTransaction id1 loc1 p1 b1 a1 ts1)
        (createStyleTransaction id2 loc2 p2 b2 a2 ts2) cfg.mergeWindowMs = true := by
      simp only [canMerge, getSingle_createStyleTransaction, createStyle_type,
        createStyle_targetLocator, createStyle_timestamp]
      simp [← hp, hl, hw, hne]
    have hmi : mergeInto (createStyleTransaction id1 loc1 p1 b1 a1 ts1)
        (createStyleTransaction id2 loc2 p2 b2 a2 ts2)
        = some { createStyleTransaction id1 loc1 p1 b1 a2 ts2 with merged := true } := by
      simp only [mergeInto, getSingle_createStyleTransaction, createStyle_afterStyles,
        createStyle_timestamp]
      rw [← hp]
      simp [hne, mapGet, mapSet, createStyleTransaction]
    simp [pushTransaction, List.getLast?_concat, hcm, hmi, List.dropLast_concat]
  · intro hno
    have hcm : canMerge (createStyleTransaction id1 loc1 p1 b1 a1 ts1)
        (createStyleTransaction id2 loc2 p2 b2 a2 ts2) cfg.mergeWindowMs = false := by
      simp only [canMerge, getSingle_createStyleTransaction, createStyle_type,
        createStyle_targetLocator, createStyle_timestamp]
      rcases hno with h | h | h
      · simp [h]
      · simp [h]
      · simp [Nat.not_le.mpr h]
    simp [pushTransaction, List.getLast?_concat, hcm]

/-- Witness for C1: the spec's color red→blue→green scenario 200ms apart
merges into one entry (before red, after green); an intervening `width` edit
does not merge. -/
theorem C1_style_merge_window_witness :
    pushTransaction {}
        { undoStack := [createStyleTransaction "a" exLoc "color" "red" "blue" 0],
          redoStack := [] }
        (createStyleTransaction "b" exLoc "color" "blue" "green" 200) true
      = { undoStack :=
            [{ createStyleTransaction "a" exLoc "color" "red" "green" 200 with merged := true }],
          redoStack := [] } ∧
    pushTransaction {}
        { undoStack := [createStyleTransaction "a" exLoc "color" "red" "blue" 0],
          redoStack := [] }
        (createStyleTransaction "c" exLoc "width" "1px" "2px" 200) true
      = { undoStack := enforceMaxHistory 100
            [createStyleTransaction "a" exLoc "color" "red" "blue" 0,
             createStyleTransaction "c" exLoc "width" "1px" "2px" 200],
          redoStack := [] } :=
  ⟨(C1_style_merge_window {} [] "a" "b" exLoc exLoc "color" "color" "red" "blue" "blue"
      "green" 0 200 (by decide)).1 ⟨rfl, rfl, by decide⟩,
   (C1_style_merge_window {} [] "a" "c" exLoc exLoc "color" "width" "red" "blue" "1px"
      "2px" 0 200 (by decide)).2 (Or.inl (by decide))⟩

/-- `enforceMaxHistory` always bounds the stack by the cap. -/
theorem enforceMaxHistory_length (m : Nat) (l : List Tx) :
    (enforceMaxHistory m l).length ≤ m := by
  unfold enforceMaxHistory
  split
  · simp only [List.length_drop]
    omega
  · omega

/-- `enforceMaxHistory` keeps a suffix: it only ever evicts the oldest
entries, from the front. -/
theorem enforceMaxHistory_drop (m : Nat) (l : List Tx) :
    ∃ k, enforceMaxHistory m l = l.drop k := by
  unfold enforceMaxHistory
  split
  · exact ⟨l.length - m, rfl⟩
  · exact ⟨0, rfl⟩

/-- A list with a known last element is non-empty. -/
theorem length_pos_of_getLast?_eq_some {l : List Tx} {tx : Tx}
    (h : l.getLast? = some tx) : 1 ≤ l.length := by
  cases l with
  | nil => cases h
  | cons a t => simp

/-- The undo stack produced by `pushTransaction` either rewrites the top
entry (merge) or is the capped extension of the old stack. -/
theorem pushTransaction_undoStack_cases (cfg : TMConfig) (st : TMState) (tx : Tx)
    (allowMerge : Bool) :
    (∃ m, (pushTransaction cfg st tx allowMerge).undoStack
        = st.undoStack.dropLast ++ [m]) ∨
    (pushTransaction cfg st tx allowMerge).undoStack
        = enforceMaxHistory cfg.maxHistory (st.undoStack ++ [tx]) := by
  by_cases hr : st.redoStack.isEmpty = true
  case neg =>
    right
    simp only [Bool.not_eq_true] at hr
    simp [pushTransaction, hr]
  case pos =>
    by_cases ha : allowMerge = true
    case neg =>
      right
      simp only [Bool.not_eq_true] at ha
      simp [pushTransaction, hr, ha]
    case pos =>
    subst ha
    cases h1 : st.undoStack.getLast? with
    | none =>
      right
      have hu : st.undoStack = [] := by
        cases hl : st.undoStack with
        | nil => rfl
        | cons a t => rw [hl, List.getLast?_cons] at h1; simp at h1
      simp [pushTransaction, hr, hu]
    | some last =>
      have hu : st.undoStack.isEmpty = false := by
        cases hl : st.undoStack with
        | nil => rw [hl] at h1; cases h1
        | cons a t => rfl
      by_cases hc : canMerge last tx cfg.mergeWindowMs = true
      · cases hm : mergeInto last tx with
        | none => right; simp [pushTransaction, hr, hu, h1, hc, hm]
        | some mtx => exact Or.inl ⟨mtx, by simp [pushTransaction, hr, hu, h1, hc, hm]⟩
      · right
        simp only [Bool.not_eq_true] at hc
        simp [pushTransaction, hr, hu, h1, hc]

/-- `pushTransaction` keeps the undo stack within the cap. -/
theorem pushTransaction_cap (cfg : TMConfig) (st : TMState) (tx : Tx)
    (allowMerge : Bool) (hm : 1 ≤ cfg.maxHistory)
    (h : st.undoStack.length ≤ cfg.maxHistory) :
    (pushTransaction cfg st tx allowMerge).undoStack.length ≤ cfg.maxHistory := by
  rcases pushTransaction_undoStack_cases cfg st tx allowMerge with ⟨m, hcase⟩ | hcase
  · rw [hcase]
    simp only [List.length_append, List.length_dropLast, List.length_singleton]
    omega
  · rw [hcase]
    exact enforceMaxHistory_length _ _

/-- Characterization of a successful `undo`: it pops the undo top and appends
it to the redo stack. -/
theorem tmUndo_result_some {R E : Type} (env : DomEnv R E) (rootDocument : R)
    (st : TMState) (tx : Tx) (hres : (tmUndo env rootDocument st).result = some tx) :
    st.undoStack.getLast? = some tx ∧
    (tmUndo env rootDocument st).state.undoStack = st.undoStack.dropLast ∧
    (tmUndo env rootDocument st).state.redoStack = st.redoStack ++ [tx] := by
  cases h1 : st.undoStack.getLast? with
  | none => simp [tmUndo, h1] at hres
  | some tx' =>
    by_cases h2 : tx'.type = TxType.style
    · cases h3 : locateElement env rootDocument tx'.targetLocator with
      | none => simp [tmUndo, h1, h2, h3] at hres
      | some e =>
        simp only [tmUndo, h1, h2, h3, beq_self_eq_true, if_true] at hres ⊢
        obtain rfl : tx' = tx := by simpa using hres
        simp
    · have h2' : (tx'.type == TxType.style) = false := by
        simpa using h2
      simp only [tmUndo, h1, h2', Bool.false_eq_true, if_false] at hres ⊢
      obtain rfl : tx' = tx := by simpa using hres
      simp

/-- Characterization of a successful `redo`: it pops the redo top and appends
it to the undo stack under the cap. -/
theorem tmRedo_result_some {R E : Type} (cfg : TMConfig) (env : DomEnv R E)
    (rootDocument : R) (st : TMState) (tx : Tx)
    (hres : (tmRedo cfg env rootDocument st).result = some tx) :
    st.redoStack.getLast? = some tx ∧
    (tmRedo cfg env rootDocument st).state.redoStack = st.redoStack.dropLast ∧
    (tmRedo cfg env rootDocument st).state.undoStack
      = enforceMaxHistory cfg.maxHistory (st.undoStack ++ [tx]) := by
  cases h1 : st.redoStack.getLast? with
  | none => simp [tmRedo, h1] at hres
  | some tx' =>
    by_cases h2 : tx'.type = TxType.style
    · cases h3 : locateElement env rootDocument tx'.targetLocator with
      | none => simp [tmRedo, h1, h2, h3] at hres
      | some e =>
        simp only [tmRedo, h1, h2, h3, beq_self_eq_true, if_true] at hres ⊢
        obtain rfl : tx' = tx := by simpa using hres
        simp
    · have h2' : (tx'.type == TxType.style) = false := by
        simpa using h2
      simp only [tmRedo, h1, h2', Bool.false_eq_true, if_false] at hres ⊢
      obtain rfl : tx' = tx := by simpa using hres
      simp

/-- Every operation keeps the undo stack within the cap. -/
theorem runOp_cap {R E : Type} (cfg : TMConfig) (env : DomEnv R E) (rootDocument : R)
    (st : TMState) (op : TMOp) (hm : 1 ≤ cfg.maxHistory)
    (h : st.undoStack.length ≤ cfg.maxHistory) :
    (runOp cfg env rootDocument st op).undoStack.length ≤ cfg.maxHistory := by
  cases op with
  | push tx allowMerge => exact pushTransaction_cap cfg st tx allowMerge hm h
  | undo =>
    show (tmUndo env rootDocument st).state.undoStack.length ≤ cfg.maxHistory
    cases h1 : st.undoStack.getLast? with
    | none => simpa [tmUndo, h1] using h
    | some tx' =>
      have hlen := length_pos_of_getLast?_eq_some h1
      by_cases h2 : tx'.type = TxType.style
      · cases h3 : locateElement env rootDocument tx'.targetLocator with
        | none =>
          simp only [tmUndo, h1, h2, h3, beq_self_eq_true, if_true]
          simp only [List.length_append, List.length_dropLast, List.length_singleton]
          omega
        | some e =>
          simp only [tmUndo, h1, h2, h3, beq_self_eq_true, if_true]
          simp only [List.length_dropLast]
          omega
      · have h2' : (tx'.type == TxType.style) = false := by simpa using h2
        simp only [tmUndo, h1, h2', Bool.false_eq_true, if_false]
        simp only [List.length_dropLast]
        omega
  | redo =>
    show (tmRedo cfg env rootDocument st).state.undoStack.length ≤ cfg.maxHistory
    cases h1 : st.redoStack.getLast? with
    | none => simpa [tmRedo, h1] using h
    | some tx' =>
      by_cases h2 : tx'.type = TxType.style
      · cases h3 : locateElement env rootDocument tx'.targetLocator with
        | none => simpa [tmRedo, h1, h2, h3] using h
        | some e =>
          simp only [tmRedo, h1, h2, h3, beq_self_eq_true, if_true]
          exact enforceMaxHistory_length _ _
      · have h2' : (tx'.type == TxType.style) = false := by simpa using h2
        simp only [tmRedo, h1, h2', Bool.false_eq_true, if_false]
        exact enforceMaxHistory_length _ _
  | clear =>
    show (tmClear st).undoStack.length ≤ cfg.maxHistory
    simp [tmClear]

/-- Any operation sequence from the empty manager keeps the cap. -/
theorem runOps_cap {R E : Type} (cfg : TMConfig) (env : DomEnv R E) (rootDocument : R)
    (hm : 1 ≤ cfg.maxHistory) :
    ∀ (ops : List TMOp) (st : TMState), st.undoStack.length ≤ cfg.maxHistory →
      (runOps cfg env rootDocument st ops).undoStack.length ≤ cfg.maxHistory := by
  intro ops
  induction ops with
  | nil => intro st h; exact h
  | cons op rest ih =>
    intro st h
    exact ih _ (runOp_cap cfg env rootDocument st op hm h)

/-- C3: a successful `undo` moves exactly one transaction undo→redo; a
successful `redo` moves one back (appending it as the new top, subject to the
cap); pushing while the redo stack is non-empty clears the redo stack; over
any operation sequence the undo stack never exceeds the (positive) cap,
evicting oldest-first; and `undo` on an empty undo stack returns none and
leaves both stacks unchanged. -/
theorem C3_stack_invariants :
    (∀ (R E : Type) (env : DomEnv R E) (rootDocument : R) (st : TMState) (tx : Tx),
      (tmUndo env rootDocument st).result = some tx →
      st.undoStack.getLast? = some tx ∧
      (tmUndo env rootDocument st).state.undoStack = st.undoStack.dropLast ∧
      (tmUndo env rootDocument st).state.redoStack = st.redoStack ++ [tx]) ∧
    (∀ (R E : Type) (cfg : TMConfig) (env : DomEnv R E) (rootDocument : R)
       (st : TMState) (tx : Tx),
      (tmRedo cfg env rootDocument st).result = some tx →
      st.redoStack.getLast? = some tx ∧
      (tmRedo cfg env rootDocument st).state.redoStack = st.redoStack.dropLast ∧
      (tmRedo cfg env rootDocument st).state.undoStack
        = enforceMaxHistory cfg.maxHistory (st.undoStack ++ [tx]) ∧
      (1 ≤ cfg.maxHistory →
        (tmRedo cfg env rootDocument st).state.undoStack.getLast? = some tx)) ∧
    (∀ (cfg : TMConfig) (st : TMState) (tx : Tx) (allowMerge : Bool),
      st.redoStack ≠ [] →
      (pushTransaction cfg st tx allowMerge).redoStack = []) ∧
    (∀ (R E : Type) (cfg : TMConfig) (env : DomEnv R E) (rootDocument : R)
       (ops : List TMOp),
      1 ≤ cfg.maxHistory →
      (runOps cfg env rootDocument {} ops).undoStack.length ≤ cfg.maxHistory) ∧
    (∀ (m : Nat) (l : List Tx), ∃ k, enforceMaxHistory m l = l.drop k) ∧
    (∀ (R E : Type) (env : DomEnv R E) (rootDocument : R) (st : TMState),
      st.undoStack = [] →
      tmUndo env rootDocument st
        = { result := none, state := st, writes := [], errors := 0 }) := by
  refine ⟨?_, ?_, ?_, ?_, ?_, ?_⟩
  · intro R E env rootDocument st tx hres
    exact tmUndo_result_some env rootDocument st tx hres
  · intro R E cfg env rootDocument st tx hres
    obtain ⟨hpop, hredo, hundo⟩ := tmRedo_result_some cfg env rootDocument st tx hres
    refine ⟨hpop, hredo, hundo, fun hm => ?_⟩
    rw [hundo]
    exact enforceMaxHistory_getLast _ hm _ _
  · intro cfg st tx allowMerge hne
    have hr : st.redoStack.isEmpty = false := by
      cases hl : st.redoStack with
      | nil => exact absurd hl hne
      | cons a t => rfl
    simp [pushTransaction, hr]
  · intro R E cfg env rootDocument ops hm
    exact runOps_cap cfg env rootDocument hm ops {} (by simp)
  · exact enforceMaxHistory_drop
  · intro R E env rootDocument st h
    have h1 : st.undoStack.getLast? = none := by rw [h]; rfl
    simp [tmUndo, h1]

/-- Witness for C3 at concrete inputs: a resolvable undo moves the single
transaction to the redo stack; pushing with a non-empty redo stack clears
it; undo on empty stacks changes nothing. -/
theorem C3_stack_invariants_witness :
    ([exTx].getLast? = some exTx ∧
     (tmUndo fullEnv () { undoStack := [exTx] }).state.undoStack = [exTx].dropLast ∧
     (tmUndo fullEnv () { undoStack := [exTx] }).state.redoStack = [] ++ [exTx]) ∧
    (pushTransaction {} { redoStack := [exTx] } exTx true).redoStack = [] ∧
    tmUndo fullEnv () {} = { result := none, state := {}, writes := [], errors := 0 } :=
  ⟨C3_stack_invariants.1 Unit Unit fullEnv () { undoStack := [exTx] } exTx (by decide),
   C3_stack_invariants.2.2.1 {} { redoStack := [exTx] } exTx true (by simp),
   C3_stack_invariants.2.2.2.2.2 Unit Unit fullEnv () {} rfl⟩

/-- The shadow chain loop resolves an appended chain in two stages. -/
theorem chainResolve_append {R E : Type} (env : DomEnv R E) (r : R)
    (l1 l2 : List Sel) :
    chainResolve env r (l1 ++ l2)
      = (chainResolve env r l1).bind (fun r' => chainResolve env r' l2) := by
  induction l1 generalizing r with
  | nil => simp [chainResolve]
  | cons s rest ih =>
    by_cases hu : isSelUnique env r s = true
    · cases hq : safeQS env r s with
      | none => simp [chainResolve, hu, hq]
      | some host =>
        cases hs : env.shadowRootOf host with
        | none => simp [chainResolve, hu, hq, hs]
        | some sr => simp [chainResolve, hu, hq, hs, ih sr]
    · have hu' : isSelUnique env r s = false := by simpa using hu
      simp [chainResolve, hu']

/-- A hop whose selector is not unique, or whose host has no shadow root,
fails the chain. -/
theorem chainResolve_step_none {R E : Type} (env : DomEnv R E) (r : R)
    (s : Sel) (suf : List Sel)
    (hfail : isSelUnique env r s = false ∨
      ∃ host, safeQS env r s = some host ∧ env.shadowRootOf host = none) :
    chainResolve env r (s :: suf) = none := by
  by_cases hu : isSelUnique env r s = true
  · rcases hfail with hfail | ⟨host, hhost, hshadow⟩
    · rw [hu] at hfail; cases hfail
    · simp [chainResolve, hu, hhost, hshadow]
  · have hu' : isSelUnique env r s = false := by simpa using hu
    simp [chainResolve, hu']

/-- With no frame chain and a shadow host chain, `locateElement` is the chain
resolution followed by the candidate loop. -/
theorem locateElement_shadow_unfold {R E : Type} (env : DomEnv R E)
    (rootDocument : R) (loc : Locator) (chain : List Sel)
    (hframe : loc.frameChain = none) (hshadow : loc.shadowHostChain = some chain) :
    locateElement env rootDocument loc
      = match chainResolve env rootDocument chain with
        | none => none
        | some queryRoot => tryCandidates env queryRoot loc.fingerprint loc.selectors := by
  simp [locateElement, hframe, hshadow]

/-- A successful candidate loop returns the head of a uniquely-matching
selector's result list. -/
theorem tryCandidates_some {R E : Type} (env : DomEnv R E) (queryRoot : R)
    (fingerprint : String) :
    ∀ (sels : List Sel) (e : E),
      tryCandidates env queryRoot fingerprint sels = some e →
      ∃ s ∈ sels, isSelUnique env queryRoot s = true ∧ safeQS env queryRoot s = some e := by
  intro sels
  induction sels with
  | nil => intro e h; cases h
  | cons s rest ih =>
    intro e h
    by_cases hu : isSelUnique env queryRoot s = true
    · cases hq : safeQS env queryRoot s with
      | none =>
        simp only [tryCandidates, hu, if_true, hq] at h
        obtain ⟨s', hmem, hrest⟩ := ih e h
        exact ⟨s', List.mem_cons_of_mem s hmem, hrest⟩
      | some el =>
        simp only [tryCandidates, hu, if_true, hq] at h
        by_cases hfp : (fingerprint != "" &&
            !verifyFingerprintStr (env.fingerprintOf el) fingerprint) = true
        · rw [if_pos hfp] at h
          obtain ⟨s', hmem, hrest⟩ := ih e h
          exact ⟨s', List.mem_cons_of_mem s hmem, hrest⟩
        · rw [if_neg hfp] at h
          cases h
          exact ⟨s, List.mem_cons_self s rest, hu, hq⟩
    · have hu' : isSelUnique env queryRoot s = false := by simpa using hu
      simp only [tryCandidates, hu', Bool.false_eq_true, if_false] at h
      obtain ⟨s', hmem, hrest⟩ := ih e h
      exact ⟨s', List.mem_cons_of_mem s hmem, hrest⟩

/-- C6: resolving a locator with a non-empty shadow host chain succeeds only
through the fully resolved chain: a failed chain (in particular any hop whose
host selector is not unique in its query root, or whose host exposes no
shadow root) makes `locateElement` return none, and a successful resolution
returns an element found under the fully resolved innermost root by a
uniquely-matching candidate selector. -/
theorem C6_shadow_chain_all_or_nothing :
    ∀ (R E : Type) (env : DomEnv R E) (rootDocument : R) (loc : Locator)
      (chain : List Sel),
      loc.frameChain = none → loc.shadowHostChain = some chain → chain ≠ [] →
      ((chainResolve env rootDocument chain = none →
        locateElement env rootDocument loc = none) ∧
       (∀ (pre : List Sel) (s : Sel) (suf : List Sel) (r : R),
         chain = pre ++ s :: suf →
         chainResolve env rootDocument pre = some r →
         (isSelUnique env r s = false ∨
          ∃ host, safeQS env r s = some host ∧ env.shadowRootOf host = none) →
         locateElement env rootDocument loc = none) ∧
       (∀ e, locateElement env rootDocument loc = some e →
         ∃ queryRoot, chainResolve env rootDocument chain = some queryRoot ∧
           ∃ s ∈ loc.selectors, isSelUnique env queryRoot s = true ∧
             safeQS env queryRoot s = some e)) := by
  intro R E env rootDocument loc chain hframe hshadow _hne
  refine ⟨?_, ?_, ?_⟩
  · intro hchain
    rw [locateElement_shadow_unfold env rootDocument loc chain hframe hshadow, hchain]
  · intro pre s suf r hdecomp hpre hfail
    have hchain : chainResolve env rootDocument chain = none := by
      rw [hdecomp, chainResolve_append, hpre]
      simpa using chainResolve_step_none env r s suf hfail
    rw [locateElement_shadow_unfold env rootDocument loc chain hframe hshadow, hchain]
  · intro e he
    rw [locateElement_shadow_unfold env rootDocument loc chain hframe hshadow] at he
    cases hchain : chainResolve env rootDocument chain with
    | none => rw [hchain] at he; cases he
    | some queryRoot =>
      rw [hchain] at he
      exact ⟨queryRoot, rfl, tryCandidates_some env queryRoot loc.fingerprint loc.selectors e he⟩

/-- Witness for C6: a one-hop chain whose host selector matches two elements
makes resolution fail. -/
theorem C6_shadow_chain_all_or_nothing_witness :
    locateElement twoEnv () exLocShadow = none :=
  (C6_shadow_chain_all_or_nothing Unit Unit twoEnv () exLocShadow [Sel.idSel "host"]
      rfl rfl (by simp)).2.1 [] (Sel.idSel "host") [] () rfl rfl (Or.inl (by decide))

/-- Hover-path runs split over event-list concatenation. -/
theorem ctlRun_append {E : Type} [DecidableEq E] (env : CtlEnv E) (st : CtlState E)
    (l1 l2 : List CtlEv) :
    ctlRun env st (l1 ++ l2)
      = ((ctlRun env (ctlRun env st l1).1 l2).1,
         (ctlRun env st l1).2 ++ (ctlRun env (ctlRun env st l1).1 l2).2) := by
  induction l1 generalizing st with
  | nil => simp [ctlRun]
  | cons ev rest ih =>
    simp only [List.cons_append, List.append_eq, ctlRun, ih, List.append_assoc]

/-- Processing a non-empty run of page (non-UI) pointer moves in hover mode
emits nothing: it only records the final position, marks the position known,
and leaves a single scheduled (non-forced, unless already pending) hover
update. -/
theorem ctlRun_moves {E : Type} [DecidableEq E] (env : CtlEnv E) :
    ∀ (moves : List (Int × Int)) (st : CtlState E), moves ≠ [] → st.mode = .hover →
      ctlRun env st (moves.map (fun m => CtlEv.move m.1 m.2 false))
        = ({ st with
              lastClientX := (moves.getLastD (0, 0)).1
              lastClientY := (moves.getLastD (0, 0)).2
              hasPointerPosition := true
              hoverPending := some (st.hoverPending.getD false) }, []) := by
  intro moves
  induction moves with
  | nil => intro st hne; exact absurd rfl hne
  | cons m rest ih =>
    intro st _hne hmode
    cases rest with
    | nil =>
      cases hp : st.hoverPending with
      | none =>
        simp [ctlRun, ctlStep, handlePointerMove, hmode, scheduleHoverUpdate, hp]
      | some f =>
        simp [ctlRun, ctlStep, handlePointerMove, hmode, scheduleHoverUpdate, hp]
    | cons m' rest' =>
      have hstep : ctlStep env st (CtlEv.move m.1 m.2 false)
          = ({ st with
                lastClientX := m.1
                lastClientY := m.2
                hasPointerPosition := true
                hoverPending := some (st.hoverPending.getD false) }, []) := by
        cases hp : st.hoverPending with
        | none => simp [ctlStep, handlePointerMove, hmode, scheduleHoverUpdate, hp]
        | some f => simp [ctlStep, handlePointerMove, hmode, scheduleHoverUpdate, hp]
      have h1 : ctlRun env st [CtlEv.move m.1 m.2 false]
          = ({ st with
                lastClientX := m.1
                lastClientY := m.2
                hasPointerPosition := true
                hoverPending := some (st.hoverPending.getD false) }, []) := by
        simp [ctlRun, hstep]
      have hsplit : (CtlEv.move m.1 m.2 false ::
            List.map (fun m => CtlEv.move m.1 m.2 false) (m' :: rest'))
          = [CtlEv.move m.1 m.2 false] ++
            List.map (fun m => CtlEv.move m.1 m.2 false) (m' :: rest') := rfl
      rw [List.map_cons, hsplit, ctlRun_append, h1]
      rw [ih _ (by simp) (by simpa using hmode)]
      simp [List.getLastD_cons]

/-- C8: in hover mode with no pending update, any non-empty burst of page
pointer moves followed by one paint cycle performs exactly one hit-test and
at most one hover callback: none when the element under the most recent
position equals the previously reported one, exactly one reporting the new
element otherwise; a pending forced refresh fires the callback even without
a change. -/
theorem C8_hover_raf_coalescing :
    ∀ (E : Type) [_inst : DecidableEq E] (env : CtlEnv E),
      (∀ (st : CtlState E) (moves : List (Int × Int)),
        st.mode = .hover → st.hoverPending = none → moves ≠ [] →
        hitTestCount (ctlRun env st
            (moves.map (fun m => CtlEv.move m.1 m.2 false) ++ [CtlEv.frame])).2 = 1 ∧
        (getTargetElementAtFast env (moves.getLastD (0, 0)).1 (moves.getLastD (0, 0)).2
            = st.lastHoveredElement →
          hoverOutputs (ctlRun env st
            (moves.map (fun m => CtlEv.move m.1 m.2 false) ++ [CtlEv.frame])).2 = []) ∧
        (getTargetElementAtFast env (moves.getLastD (0, 0)).1 (moves.getLastD (0, 0)).2
            ≠ st.lastHoveredElement →
          hoverOutputs (ctlRun env st
              (moves.map (fun m => CtlEv.move m.1 m.2 false) ++ [CtlEv.frame])).2
            = [CtlOut.hoverCb (getTargetElementAtFast env
                (moves.getLastD (0, 0)).1 (moves.getLastD (0, 0)).2)] ∧
          (ctlRun env st
              (moves.map (fun m => CtlEv.move m.1 m.2 false) ++ [CtlEv.frame])).1.lastHoveredElement
            = getTargetElementAtFast env (moves.getLastD (0, 0)).1 (moves.getLastD (0, 0)).2)) ∧
      (∀ (st : CtlState E),
        st.mode = .hover → st.hasPointerPosition = true → st.hoverPending = some true →
        (ctlRun env st [CtlEv.frame]).2
          = [CtlOut.hitTest,
             CtlOut.hoverCb (getTargetElementAtFast env st.lastClientX st.lastClientY)]) := by
  intro E _inst env
  constructor
  · intro st moves hmode hpend hne
    rw [ctlRun_append, ctlRun_moves env moves st hne hmode, hpend]
    simp only [Option.getD_none]
    set s1 : CtlState E := { st with
      lastClientX := (moves.getLastD (0, 0)).1
      lastClientY := (moves.getLastD (0, 0)).2
      hasPointerPosition := true
      hoverPending := some false } with hs1
    have hframe : ctlRun env s1 [CtlEv.frame] = commitHoverUpdate env s1 false := by
      simp [ctlRun, ctlStep, hs1]
    rw [hframe]
    by_cases hsame : getTargetElementAtFast env (moves.getLastD (0, 0)).1
        (moves.getLastD (0, 0)).2 = st.lastHoveredElement
    · have hcommit : commitHoverUpdate env s1 false
          = ({ s1 with hoverPending := none }, [CtlOut.hitTest]) := by
        simp [commitHoverUpdate, hs1, hmode, hsame]
        rw [List.getLastD_eq_getLast?] at hsame
        simpa using hsame
      rw [hcommit]
      refine ⟨rfl, fun _ => rfl, fun hdiff => absurd hsame hdiff⟩
    · have hcommit : commitHoverUpdate env s1 false
          = ({ s1 with
                hoverPending := none
                lastHoveredElement := getTargetElementAtFast env
                  (moves.getLastD (0, 0)).1 (moves.getLastD (0, 0)).2 },
             [CtlOut.hitTest,
              CtlOut.hoverCb (getTargetElementAtFast env
                (moves.getLastD (0, 0)).1 (moves.getLastD (0, 0)).2)]) := by
        simp [commitHoverUpdate, hs1, hmode, hsame]
        rw [List.getLastD_eq_getLast?] at hsame
        simpa using hsame
      rw [hcommit]
      exact ⟨rfl, fun heq => absurd heq hsame, fun _ => ⟨rfl, rfl⟩⟩
  · intro st hmode hpp hpend
    simp [ctlRun, ctlStep, hpend, commitHoverUpdate, hmode, hpp]

/-- Witness for C8: hovering element 1, two pointer moves in one paint cycle
ending over element 2, then the frame: one hit-test, one callback, reporting
element 2. -/
theorem C8_hover_raf_coalescing_witness :
    hitTestCount (ctlRun exCtlEnv exCtlSt
        ([((1 : Int), (0 : Int)), (2, 0)].map (fun m => CtlEv.move m.1 m.2 false)
          ++ [CtlEv.frame])).2 = 1 ∧
    hoverOutputs (ctlRun exCtlEnv exCtlSt
        ([((1 : Int), (0 : Int)), (2, 0)].map (fun m => CtlEv.move m.1 m.2 false)
          ++ [CtlEv.frame])).2 = [CtlOut.hoverCb (some 2)] := by
  have h := (C8_hover_raf_coalescing Nat exCtlEnv).1 exCtlSt [(1, 0), (2, 0)]
    rfl rfl (by simp)
  exact ⟨h.1, (h.2.2 (by decide)).1⟩

/-- `computeRects` never touches the last emitted rectangles. -/
theorem computeRects_lastRects {E : Type} [DecidableEq E] (env : TrkEnv E)
    (st : TrkState E) : (computeRects env st).2.lastRects = st.lastRects := by
  unfold computeRects
  dsimp only
  split
  · split <;> rfl
  · rfl

/-- A rectangle slot that is not approximately equal differs beyond the
tolerance (or changed nullity). -/
theorem rectDiffers_of_not_approx {a b : Option VRect}
    (h : rectApproximatelyEqual a b = false) : rectDiffers a b := by
  cases a with
  | none =>
    cases b with
    | none => simp [rectApproximatelyEqual] at h
    | some vb => trivial
  | some va =>
    cases b with
    | none => trivial
    | some vb =>
      by_contra hno
      simp only [rectDiffers, not_or, not_le] at hno
      obtain ⟨h1, h2, h3, h4⟩ := hno
      simp [rectApproximatelyEqual, approximatelyEqual, h1, h2, h3, h4] at h

/-- C9: a detached tracked element makes the next (in particular forced)
sync report null for that slot and drop the stored reference; and a combined
rectangle update is emitted only when a slot differs from the previously
emitted value beyond the sub-pixel tolerance. -/
theorem C9_tracker_detach_and_tolerance :
    ∀ (E : Type) [_inst : DecidableEq E] (env : TrkEnv E) (st : TrkState E),
      (∀ e, st.hoverElement = some e → env.isConnected e = false →
        (computeRects env st).1.hover = none ∧
        (forceUpdate env st).1.hoverElement = none ∧
        (∀ r, (forceUpdate env st).2 = some r → r.hover = none)) ∧
      (∀ e, st.selectionElement = some e → env.isConnected e = false →
        (computeRects env st).1.selection = none ∧
        (forceUpdate env st).1.selectionElement = none ∧
        (∀ r, (forceUpdate env st).2 = some r → r.selection = none)) ∧
      (∀ r, (forceUpdate env st).2 = some r →
        rectDiffers r.hover st.lastRects.hover ∨
        rectDiffers r.selection st.lastRects.selection) := by
  intro E _inst env st
  refine ⟨?_, ?_, ?_⟩
  · intro e he hc
    have hres : resolveConnected env (some e) = none := by
      simp [resolveConnected, hc]
    have hrect : (computeRects env st).1.hover = none ∧
        (computeRects env st).2.hoverElement = none := by
      unfold computeRects
      simp only [he]
      simp [hres, readElementRect]
    rcases hcr : computeRects env st with ⟨rects, st'⟩
    rw [hcr] at hrect
    have h1 : rects.hover = none := hrect.1
    have h2 : st'.hoverElement = none := hrect.2
    refine ⟨h1, ?_, ?_⟩
    · simp only [forceUpdate, updateIfChanged, hcr]
      by_cases heq : trackedRectsEqual rects st'.lastRects = true
      · simp [heq, h2]
      · have heq' : trackedRectsEqual rects st'.lastRects = false := by
          simpa using heq
        simp [heq', h2]
    · intro r hr
      simp only [forceUpdate, updateIfChanged, hcr] at hr
      by_cases heq : trackedRectsEqual rects st'.lastRects = true
      · simp [heq] at hr
      · have heq' : trackedRectsEqual rects st'.lastRects = false := by
          simpa using heq
        simp [heq'] at hr
        rw [← hr]
        exact h1
  · intro e he hc
    have hres : resolveConnected env (some e) = none := by
      simp [resolveConnected, hc]
    have hrect : (computeRects env st).1.selection = none ∧
        (computeRects env st).2.selectionElement = none := by
      unfold computeRects
      simp only [he]
      cases hhov : resolveConnected env st.hoverElement <;>
        simp [hres, readElementRect]
    rcases hcr : computeRects env st with ⟨rects, st'⟩
    rw [hcr] at hrect
    have h1 : rects.selection = none := hrect.1
    have h2 : st'.selectionElement = none := hrect.2
    refine ⟨h1, ?_, ?_⟩
    · simp only [forceUpdate, updateIfChanged, hcr]
      by_cases heq : trackedRectsEqual rects st'.lastRects = true
      · simp [heq, h2]
      · have heq' : trackedRectsEqual rects st'.lastRects = false := by
          simpa using heq
        simp [heq', h2]
    · intro r hr
      simp only [forceUpdate, updateIfChanged, hcr] at hr
      by_cases heq : trackedRectsEqual rects st'.lastRects = true
      · simp [heq] at hr
      · have heq' : trackedRectsEqual rects st'.lastRects = false := by
          simpa using heq
        simp [heq'] at hr
        rw [← hr]
        exact h1
  · intro r hr
    rcases hcr : computeRects env st with ⟨rects, st'⟩
    have hlast : st'.lastRects = st.lastRects := by
      have := computeRects_lastRects env st
      rw [hcr] at this
      exact this
    simp only [forceUpdate, updateIfChanged, hcr] at hr
    by_cases heq : trackedRectsEqual rects st'.lastRects = true
    · simp [heq] at hr
    · have heq' : trackedRectsEqual rects st'.lastRects = false := by
        simpa using heq
      simp [heq'] at hr
      rw [hlast] at heq'
      have hone : rectApproximatelyEqual rects.hover st.lastRects.hover = false ∨
          rectApproximatelyEqual rects.selection st.lastRects.selection = false := by
        by_contra hno
        simp only [not_or] at hno
        obtain ⟨h1, h2⟩ := hno
        simp only [Bool.not_eq_false] at h1 h2
        simp [trackedRectsEqual, h1, h2] at heq'
      rw [← hr]
      rcases hone with hone | hone
      · exact Or.inl (rectDiffers_of_not_approx hone)
      · exact Or.inr (rectDiffers_of_not_approx hone)

/-- Witness for C9: a detached hover element under a forced sync reports a
null hover rectangle, drops the reference, and the emitted update differs
from the previous rectangles beyond the tolerance. -/
theorem C9_tracker_detach_and_tolerance_witness :
    ((computeRects exTrkEnv exTrkSt).1.hover = none ∧
     (forceUpdate exTrkEnv exTrkSt).1.hoverElement = none) ∧
    (rectDiffers (TrackedRects.mk none none).hover exTrkSt.lastRects.hover ∨
     rectDiffers (TrackedRects.mk none none).selection exTrkSt.lastRects.selection) :=
  ⟨⟨((C9_tracker_detach_and_tolerance Nat exTrkEnv exTrkSt).1 1 rfl rfl).1,
    ((C9_tracker_detach_and_tolerance Nat exTrkEnv exTrkSt).1 1 rfl rfl).2.1⟩,
   (C9_tracker_detach_and_tolerance Nat exTrkEnv exTrkSt).2.2
     (TrackedRects.mk none none) (by decide)⟩

/-- Membership in a document is membership of its key list. -/
theorem hasPos_iff_mem (d : Doc) (p : Pos) : hasPos d p = true ↔ p ∈ d.keys := by
  unfold hasPos dataAt Doc.keys
  cases hf : d.elems.find? (fun pr => pr.1 == p) with
  | none =>
    simp only [Option.map_none', Option.isSome_none, Bool.false_eq_true, false_iff]
    intro hm
    obtain ⟨x, hx, hfst⟩ := List.mem_map.mp hm
    have := List.find?_eq_none.mp hf x hx
    simp [hfst] at this
  | some pr =>
    simp only [Option.map_some', Option.isSome_some, true_iff]
    have hmem := List.mem_of_find?_eq_some hf
    have hpred := List.find?_some hf
    simp only [beq_iff_eq] at hpred
    exact hpred ▸ List.mem_map_of_mem Prod.fst hmem

/-- A position with data is a key. -/
theorem mem_keys_of_dataAt {d : Doc} {p : Pos} {dt : ElemData}
    (h : dataAt d p = some dt) : p ∈ d.keys := by
  rw [← hasPos_iff_mem]
  unfold hasPos
  rw [h]
  rfl

/-- Filtering a duplicate-free list by a predicate that holds exactly at one
member yields that singleton. -/
theorem filter_eq_singleton {α : Type} (l : List α) (pred : α → Bool) (a : α)
    (hnd : l.Nodup) (ha : a ∈ l) (hiff : ∀ x ∈ l, (pred x = true ↔ x = a)) :
    l.filter pred = [a] := by
  induction l with
  | nil => cases ha
  | cons x xs ih =>
    rcases List.mem_cons.mp ha with heq | hmem
    · subst heq
      have hx : pred a = true := (hiff a (List.mem_cons_self _ _)).mpr rfl
      rw [List.filter_cons_of_pos hx]
      have hnone : ∀ y ∈ xs, ¬(pred y = true) := by
        intro y hy hpy
        have := (hiff y (List.mem_cons_of_mem _ hy)).mp hpy
        subst this
        exact (List.nodup_cons.mp hnd).1 hy
      rw [List.filter_eq_nil_iff.mpr hnone]
    · have hxne : x ≠ a := by
        intro hxa
        subst hxa
        exact (List.nodup_cons.mp hnd).1 hmem
      have hx : pred x = false := by
        cases hpx : pred x with
        | false => rfl
        | true => exact absurd ((hiff x (List.mem_cons_self _ _)).mp hpx) hxne
      rw [List.filter_cons_of_neg (by simp [hx])]
      exact ih (List.nodup_cons.mp hnd).2 hmem
        (fun y hy => hiff y (List.mem_cons_of_mem _ hy))

/-- An unchanged fingerprint always verifies. -/
theorem verifyFingerprintStr_self (s : String) : verifyFingerprintStr s s = true := by
  unfold verifyFingerprintStr
  simp only [bne_self_eq_false, Bool.false_eq_true, if_false]
  cases h : (jsSplit '|' s).find? (fun p => jsStartsWith "id=" p) <;> simp [h]

/-- `push` keeps the head of a non-empty candidate list. -/
theorem pushCand_cons (x : Sel) (l : List Sel) (o : Option Sel) :
    ∃ t, pushCand (x :: l) o = x :: t := by
  cases o with
  | none => exact ⟨l, rfl⟩
  | some sel =>
    by_cases h : ((x :: l).map (fun c => c.render)).contains sel.render = true
    · refine ⟨l, ?_⟩
      show (if ((x :: l).map (fun c => c.render)).contains sel.render = true
            then x :: l else (x :: l) ++ [sel]) = x :: l
      rw [if_pos h]
    · refine ⟨l ++ [sel], ?_⟩
      show (if ((x :: l).map (fun c => c.render)).contains sel.render = true
            then x :: l else (x :: l) ++ [sel]) = x :: (l ++ [sel])
      rw [if_neg h]
      rfl

/-- The key list of a well-formed document has no duplicates. -/
theorem docWF_nodup {d : Doc} (hwf : docWF d = true) : d.keys.Nodup := by
  unfold docWF at hwf
  rw [Bool.and_eq_true] at hwf
  exact of_decide_eq_true hwf.1

/-- With a globally unique, well-formed id, the id selector matches exactly
the element itself. -/
theorem docSelectAll_idSel {d : Doc} {p : Pos} {dt : ElemData}
    (hwf : docWF d = true) (hdata : dataAt d p = some dt)
    (huniq : ∀ q ∈ d.keys, idAt d q = dt.idAttr → q = p) :
    docSelectAll d (Sel.idSel dt.idAttr) = [p] := by
  unfold docSelectAll
  apply filter_eq_singleton
  · exact docWF_nodup hwf
  · exact mem_keys_of_dataAt hdata
  · intro q hq
    constructor
    · intro hmatch
      apply huniq q hq
      unfold matchesSel at hmatch
      unfold idAt
      cases hd : dataAt d q with
      | none => rw [hd] at hmatch; cases hmatch
      | some dq =>
        rw [hd] at hmatch
        simpa using hmatch
    · intro hqp
      subst hqp
      unfold matchesSel
      rw [hdata]
      simp

/-- C5: for an element with a non-empty well-formed id (HTML ids contain no
whitespace, so trimming is the identity) that is globally unique in its query
root, the locator's first candidate is the `#id` selector (rendered as the
CSS-escaped id string), and resolving the locator against the unchanged
document returns the element itself. -/
theorem C5_unique_id_first_candidate :
    ∀ (d : Doc) (p : Pos) (dt : ElemData),
      docWF d = true →
      dataAt d p = some dt →
      dt.idAttr ≠ "" →
      jsTrim dt.idAttr = dt.idAttr →
      (∀ q ∈ d.keys, idAt d q = dt.idAttr → q = p) →
      (generateSelectorCandidates d p).head? = some (Sel.idSel dt.idAttr) ∧
      (Sel.idSel dt.idAttr).render = "#" ++ cssEscape dt.idAttr ∧
      docLocateElement d (createElementLocator d p) = some p := by
  intro d p dt hwf hdata hne htrim huniq
  have hsel : docSelectAll d (Sel.idSel dt.idAttr) = [p] :=
    docSelectAll_idSel hwf hdata huniq
  have huniqb : docIsUnique d (Sel.idSel dt.idAttr) = true := by
    simp [docIsUnique, hsel]
  have htry : tryIdSelector d p = some (Sel.idSel dt.idAttr) := by
    unfold tryIdSelector
    rw [hdata]
    simp [htrim, hne, huniqb]
  have hcands : ∃ rest, generateSelectorCandidates d p = Sel.idSel dt.idAttr :: rest := by
    unfold generateSelectorCandidates
    rw [htry]
    have h1 : pushCand [] (some (Sel.idSel dt.idAttr)) = [Sel.idSel dt.idAttr] := rfl
    rw [h1]
    dsimp only
    obtain ⟨t2, h2⟩ := pushCand_cons (Sel.idSel dt.idAttr) [] (tryDataAttrSelector d p)
    rw [h2]
    obtain ⟨t3, h3⟩ := pushCand_cons (Sel.idSel dt.idAttr) t2 (tryClassSelector d p)
    rw [h3]
    obtain ⟨t4, h4⟩ := pushCand_cons (Sel.idSel dt.idAttr) t3 (some (buildPathSelector d p))
    rw [h4]
    exact ⟨t4.take 4, rfl⟩
  obtain ⟨rest, hc⟩ := hcands
  refine ⟨by rw [hc]; rfl, rfl, ?_⟩
  have hloc : docLocateElement d (createElementLocator d p)
      = tryCandidates (docEnv d) () (createElementLocator d p).fingerprint
          (createElementLocator d p).selectors := by
    simp [docLocateElement, locateElement, createElementLocator]
  rw [hloc]
  have hselfield : (createElementLocator d p).selectors
      = Sel.idSel dt.idAttr :: rest := hc
  have hfp : (createElementLocator d p).fingerprint = computeFingerprint dt := by
    simp [createElementLocator, hdata]
  rw [hselfield, hfp]
  have hu : isSelUnique (docEnv d) () (Sel.idSel dt.idAttr) = true := by
    simp [isSelUnique, docEnv, hsel]
  have hq : safeQS (docEnv d) () (Sel.idSel dt.idAttr) = some p := by
    simp [safeQS, docEnv, hsel]
  have henv : (docEnv d).fingerprintOf p = computeFingerprint dt := by
    simp [docEnv, hdata]
  simp [tryCandidates, hu, hq, henv, verifyFingerprintStr_self]

/-- Witness for C5: the spec's `<button id="go">` scenario. -/
theorem C5_unique_id_first_candidate_witness :
    (generateSelectorCandidates exDocC5 [0, 0]).head? = some (Sel.idSel "go") ∧
    docLocateElement exDocC5 (createElementLocator exDocC5 [0, 0]) = some [0, 0] := by
  have h := C5_unique_id_first_candidate exDocC5 [0, 0]
    { tag := "button", idAttr := "go", text := "Go" }
    (by decide) (by decide) (by decide) (by decide) (by decide)
  exact ⟨h.1, h.2.2⟩

/-- In a well-formed document, the parent of an element exists. -/
theorem docWF_parent {d : Doc} {q : Pos} {i : Nat} (hwf : docWF d = true)
    (h : hasPos d (q ++ [i]) = true) : hasPos d q = true := by
  unfold docWF at hwf
  rw [Bool.and_eq_true] at hwf
  have hall := List.all_eq_true.mp hwf.2 (q ++ [i]) ((hasPos_iff_mem d _).mp h)
  rw [Bool.or_eq_true] at hall
  rcases hall with hemp | hrest
  · simp at hemp
  · rw [Bool.and_eq_true] at hrest
    rw [List.dropLast_concat] at hrest
    exact hrest.1

/-- In a well-formed document, child indices are contiguous from 0. -/
theorem docWF_contig {d : Doc} {q : Pos} {i j : Nat} (hwf : docWF d = true)
    (h : hasPos d (q ++ [i]) = true) (hj : j < i) : hasPos d (q ++ [j]) = true := by
  unfold docWF at hwf
  rw [Bool.and_eq_true] at hwf
  have hall := List.all_eq_true.mp hwf.2 (q ++ [i]) ((hasPos_iff_mem d _).mp h)
  rw [Bool.or_eq_true] at hall
  rcases hall with hemp | hrest
  · simp at hemp
  · rw [Bool.and_eq_true] at hrest
    have hlast : (q ++ [i]).getLastD 0 = i := by
      rw [List.getLastD_eq_getLast?, List.getLast?_concat]
      rfl
    have := List.all_eq_true.mp hrest.2 j
    rw [hlast, List.dropLast_concat] at this
    exact this (List.mem_range.mpr hj)

/-- In a well-formed document, each child index is below the element count. -/
theorem child_index_lt {d : Doc} {q : Pos} {i : Nat} (hwf : docWF d = true)
    (h : hasPos d (q ++ [i]) = true) : i < d.elems.length := by
  have hsub : ((List.range (i + 1)).map (fun j => q ++ [j])) ⊆ d.keys := by
    intro x hx
    obtain ⟨j, hj, hxe⟩ := List.mem_map.mp hx
    rw [List.mem_range] at hj
    rw [← hxe, ← hasPos_iff_mem]
    rcases Nat.lt_succ_iff_lt_or_eq.mp hj with hlt | heq
    · exact docWF_contig hwf h hlt
    · rw [heq]; exact h
  have hnd : ((List.range (i + 1)).map (fun j => q ++ [j])).Nodup := by
    refine List.Nodup.map ?_ (List.nodup_range _)
    intro a b hab
    have := List.append_inj_right hab rfl
    simpa using this
  have hle := (hnd.subperm hsub).length_le
  have hkl : d.keys.length = d.elems.length := List.length_map _ _
  simp only [List.length_map, List.length_range] at hle
  omega

/-- Membership in the children list of a well-formed document. -/
theorem mem_childrenPos_iff {d : Doc} {q c : Pos} (hwf : docWF d = true) :
    c ∈ childrenPos d q ↔ (∃ i, c = q ++ [i]) ∧ hasPos d c = true := by
  unfold childrenPos
  rw [List.mem_filterMap]
  constructor
  · rintro ⟨i, _, hf⟩
    by_cases hp : hasPos d (q ++ [i]) = true
    · rw [if_pos hp] at hf
      cases hf
      exact ⟨⟨i, rfl⟩, hp⟩
    · rw [if_neg hp] at hf
      cases hf
  · rintro ⟨⟨i, rfl⟩, hp⟩
    refine ⟨i, List.mem_range.mpr (child_index_lt hwf hp), ?_⟩
    rw [if_pos hp]

/-- The children list of any position has no duplicates. -/
theorem childrenPos_nodup (d : Doc) (q : Pos) : (childrenPos d q).Nodup := by
  unfold childrenPos
  refine List.Nodup.filterMap ?_ (List.nodup_range _)
  intro a b c hca hcb
  by_cases ha : hasPos d (q ++ [a]) = true
  · rw [if_pos ha] at hca
    by_cases hb : hasPos d (q ++ [b]) = true
    · rw [if_pos hb] at hcb
      simp only [Option.mem_def, Option.some.injEq] at hca hcb
      have : q ++ [a] = q ++ [b] := by rw [hca, hcb]
      have := List.append_inj_right this rfl
      simpa using this
    · rw [if_neg hb] at hcb
      cases hcb
  · rw [if_neg ha] at hca
    cases hca

/-- `indexOf` is injective on list members. -/
theorem idxOfPos_inj {l : List Pos} :
    ∀ {a b : Pos}, a ∈ l → b ∈ l → idxOfPos a l = idxOfPos b l → a = b := by
  induction l with
  | nil => intro a b ha; cases ha
  | cons x rest ih =>
    intro a b ha hb h
    unfold idxOfPos at h
    by_cases hxa : x = a
    · by_cases hxb : x = b
      · rw [← hxa, ← hxb]
      · rw [if_pos hxa, if_neg hxb] at h
        cases h
    · by_cases hxb : x = b
      · rw [if_neg hxa, if_pos hxb] at h
        cases h
      · rw [if_neg hxa, if_neg hxb] at h
        have ha' : a ∈ rest := by
          rcases List.mem_cons.mp ha with heq | hm
          · exact absurd heq.symm hxa
          · exact hm
        have hb' : b ∈ rest := by
          rcases List.mem_cons.mp hb with heq | hm
          · exact absurd heq.symm hxb
          · exact hm
        exact ih ha' hb' (Nat.succ_injective h)

/-- An element below the root has the children of its parent as siblings. -/
theorem siblingsOf_eq_children {d : Doc} {q P : Pos} (hqP : q.dropLast = P)
    (hqne : q ≠ []) : siblingsOf d q = childrenPos d P := by
  unfold siblingsOf
  have hqE : q.isEmpty = false := by
    cases q with
    | nil => exact absurd rfl hqne
    | cons a t => rfl
  rw [hqE]
  simp only [Bool.false_eq_true, if_false]
  rw [hqP]

/-- An existing element below the root is a child of its parent. -/
theorem mem_children_of_dropLast {d : Doc} {q P : Pos} (hwf : docWF d = true)
    (hqP : q.dropLast = P) (hqne : q ≠ []) (hq : hasPos d q = true) :
    q ∈ childrenPos d P :=
  (mem_childrenPos_iff hwf).mpr
    ⟨⟨q.getLast hqne, by rw [← hqP]; exact (List.dropLast_append_getLast hqne).symm⟩, hq⟩

/-- The segment `buildPathSelector` emits for a child identifies that child
uniquely among its parent's children, and matches the child itself. -/
theorem matchesSeg_segFor {d : Doc} (hwf : docWF d = true) {P c : Pos}
    (hc : c.dropLast = P) (hcne : c ≠ []) (hcpos : hasPos d c = true) :
    (∀ q, q.dropLast = P → q ≠ [] → matchesSeg d q (segFor d c) = true → q = c) ∧
    matchesSeg d c (segFor d c) = true := by
  obtain ⟨dc, hdc⟩ := Option.isSome_iff_exists.mp hcpos
  have hctag : tagAt d c = dc.tag := by unfold tagAt; rw [hdc]
  have hsibc : siblingsOf d c = childrenPos d P := siblingsOf_eq_children hc hcne
  have cmem : c ∈ childrenPos d P := mem_children_of_dropLast hwf hc hcne hcpos
  have cmemT : c ∈ (childrenPos d P).filter (fun r => tagAt d r == dc.tag) := by
    refine List.mem_filter.mpr ⟨cmem, ?_⟩
    rw [hctag]
    exact beq_self_eq_true _
  by_cases hlen : ((childrenPos d P).filter (fun r => tagAt d r == dc.tag)).length > 1
  · have hseg : segFor d c
        = Seg.mk dc.tag
            (some (idxOfPos c ((childrenPos d P).filter (fun r => tagAt d r == dc.tag)) + 1)) := by
      unfold segFor
      rw [hsibc, hctag, if_pos hlen]
    constructor
    · intro q hqP hqne hmatch
      rw [hseg] at hmatch
      unfold matchesSeg at hmatch
      cases hdq : dataAt d q with
      | none => rw [hdq] at hmatch; cases hmatch
      | some dq =>
        rw [hdq] at hmatch
        rw [Bool.and_eq_true] at hmatch
        obtain ⟨htagq, hnth⟩ := hmatch
        rw [beq_iff_eq] at htagq
        rw [siblingsOf_eq_children hqP hqne] at hnth
        dsimp only at htagq hnth
        rw [beq_iff_eq] at hnth
        have hqpos : hasPos d q = true := by unfold hasPos; rw [hdq]; rfl
        have qmem : q ∈ childrenPos d P := mem_children_of_dropLast hwf hqP hqne hqpos
        have qmemT : q ∈ (childrenPos d P).filter (fun r => tagAt d r == dc.tag) := by
          refine List.mem_filter.mpr ⟨qmem, ?_⟩
          have : tagAt d q = dq.tag := by unfold tagAt; rw [hdq]
          rw [this, htagq]
          exact beq_self_eq_true _
        exact idxOfPos_inj qmemT cmemT (Nat.succ_injective hnth)
    · rw [hseg]
      unfold matchesSeg
      rw [hdc]
      rw [hsibc]
      simp
  · have hseg : segFor d c = Seg.mk dc.tag none := by
      unfold segFor
      rw [hsibc, hctag, if_neg hlen]
    have hsingle : (childrenPos d P).filter (fun r => tagAt d r == dc.tag) = [c] := by
      have hpos : 0 < ((childrenPos d P).filter (fun r => tagAt d r == dc.tag)).length :=
        List.length_pos.mpr (List.ne_nil_of_mem cmemT)
      have h1 : ((childrenPos d P).filter (fun r => tagAt d r == dc.tag)).length = 1 := by
        omega
      obtain ⟨a, ha⟩ := List.length_eq_one.mp h1
      rw [ha] at cmemT
      rw [ha]
      cases List.mem_singleton.mp cmemT
      rfl
    constructor
    · intro q hqP hqne hmatch
      rw [hseg] at hmatch
      unfold matchesSeg at hmatch
      cases hdq : dataAt d q with
      | none => rw [hdq] at hmatch; cases hmatch
      | some dq =>
        rw [hdq] at hmatch
        rw [Bool.and_eq_true] at hmatch
        obtain ⟨htagq, _⟩ := hmatch
        rw [beq_iff_eq] at htagq
        have hqpos : hasPos d q = true := by unfold hasPos; rw [hdq]; rfl
        have qmem : q ∈ childrenPos d P := mem_children_of_dropLast hwf hqP hqne hqpos
        have qmemT : q ∈ (childrenPos d P).filter (fun r => tagAt d r == dc.tag) := by
          refine List.mem_filter.mpr ⟨qmem, ?_⟩
          have htq : tagAt d q = dq.tag := by unfold tagAt; rw [hdq]
          rw [htq, htagq]
          exact beq_self_eq_true _
        rw [hsingle] at qmemT
        exact List.mem_singleton.mp qmemT
    · rw [hseg]
      unfold matchesSeg
      rw [hdc]
      simp

/-- Chain matching on a cons with a non-empty tail. -/
theorem matchesRev_cons {d : Doc} {q : Pos} {sg : Seg} {rest : List Seg}
    (hne : rest ≠ []) :
    matchesRev d q (sg :: rest)
      = (matchesSeg d q sg && (!q.isEmpty && matchesRev d q.dropLast rest)) := by
  cases rest with
  | nil => exact absurd rfl hne
  | cons a t => rfl

/-- The upward loop stops immediately at the `body` element. -/
theorem upSegs_body {d : Doc} {pb : Pos} (htag : tagAt d pb = "body") :
    upSegs d pb.reverse = [] := by
  cases hrev : pb.reverse with
  | nil =>
    have hpb : pb = [] := by
      have := congrArg List.reverse hrev
      simpa using this
    have htag' : tagAt d ([] : Pos) = "body" := hpb ▸ htag
    simp [upSegs, htag']
  | cons i rest =>
    have hp : (i :: rest).reverse = pb := by rw [← hrev, List.reverse_reverse]
    simp [upSegs, hp, htag]

/-- The upward loop emits the element's segment and continues at its parent
when the element is not the `body`. -/
theorem upSegs_step {d : Doc} {P : Pos} {i : Nat}
    (htag : tagAt d (P ++ [i]) ≠ "body") :
    upSegs d (P ++ [i]).reverse = segFor d (P ++ [i]) :: upSegs d P.reverse := by
  have hrev : (P ++ [i]).reverse = i :: P.reverse := by simp
  rw [hrev]
  have hp : (i :: P.reverse).reverse = P ++ [i] := by simp
  have htagb : (tagAt d (P ++ [i]) == "body") = false := by
    rw [beq_eq_false_iff_ne]
    exact htag
  simp [upSegs, hp, htagb]

/-- The segments collected from a descendant of the unique `body` element up
to the body, anchored by the `body` segment, match exactly that descendant. -/
theorem upSegs_matchesRev {d : Doc} {pb : Pos} (hwf : docWF d = true)
    (hbody : ∀ q ∈ d.keys, (tagAt d q = "body" ↔ q = pb)) :
    ∀ (s : List Nat), hasPos d (pb ++ s) = true →
      ∀ q, (matchesRev d q (upSegs d (pb ++ s).reverse ++ [Seg.mk "body" none]) = true
            ↔ q = pb ++ s) := by
  intro s
  induction s using List.reverseRecOn with
  | nil =>
    intro hpos q
    rw [List.append_nil] at hpos ⊢
    have htag : tagAt d pb = "body" := (hbody pb ((hasPos_iff_mem d pb).mp hpos)).mpr rfl
    rw [upSegs_body htag, List.nil_append]
    constructor
    · intro hm
      have hms : matchesSeg d q (Seg.mk "body" none) = true := by
        have : matchesRev d q [Seg.mk "body" none]
            = (matchesSeg d q (Seg.mk "body" none) && true) := rfl
        rw [this] at hm
        simpa using hm
      unfold matchesSeg at hms
      cases hdq : dataAt d q with
      | none => rw [hdq] at hms; cases hms
      | some dq =>
        rw [hdq] at hms
        rw [Bool.and_eq_true] at hms
        obtain ⟨ht, _⟩ := hms
        rw [beq_iff_eq] at ht
        have hq : hasPos d q = true := by unfold hasPos; rw [hdq]; rfl
        have htq : tagAt d q = "body" := by unfold tagAt; rw [hdq]; exact ht
        exact (hbody q ((hasPos_iff_mem d q).mp hq)).mp htq
    · intro hq
      rw [hq]
      obtain ⟨dpb, hdpb⟩ := Option.isSome_iff_exists.mp hpos
      have hdtag : dpb.tag = "body" := by
        have h := htag
        unfold tagAt at h
        rw [hdpb] at h
        exact h
      have : matchesRev d pb [Seg.mk "body" none]
          = (matchesSeg d pb (Seg.mk "body" none) && true) := rfl
      rw [this]
      unfold matchesSeg
      rw [hdpb]
      simp [hdtag]
  | append_singleton s' i ih =>
    intro hpos q
    have hassoc : pb ++ (s' ++ [i]) = (pb ++ s') ++ [i] := by rw [List.append_assoc]
    rw [hassoc] at hpos ⊢
    have hPpos : hasPos d (pb ++ s') = true := docWF_parent hwf hpos
    have htagne : tagAt d ((pb ++ s') ++ [i]) ≠ "body" := by
      intro htag
      have heq := (hbody _ ((hasPos_iff_mem d _).mp hpos)).mp htag
      have hlen := congrArg List.length heq
      simp at hlen
    rw [upSegs_step htagne, List.cons_append]
    have hrestne : upSegs d (pb ++ s').reverse ++ [Seg.mk "body" none] ≠ [] := by simp
    rw [matchesRev_cons hrestne]
    have huniq := matchesSeg_segFor hwf (P := pb ++ s') (c := (pb ++ s') ++ [i])
      List.dropLast_concat (by simp) hpos
    constructor
    · intro hm
      rw [Bool.and_eq_true, Bool.and_eq_true] at hm
      obtain ⟨h1, h2, h3⟩ := hm
      have hqne : q ≠ [] := by
        cases q with
        | nil => cases h2
        | cons a t => simp
      have hdrop : q.dropLast = pb ++ s' := (ih hPpos q.dropLast).mp h3
      exact huniq.1 q hdrop hqne h1
    · intro hq
      subst hq
      rw [Bool.and_eq_true, Bool.and_eq_true]
      refine ⟨huniq.2, by simp, ?_⟩
      rw [List.dropLast_concat]
      exact (ih hPpos (pb ++ s')).mpr rfl

/-- C7 (amended): the structural-path strategy always produces a selector;
for every element that is a strict descendant of the document's unique
`body` element, that selector has a non-empty segment path and uniquely
resolves to the element in its query root at synthesis time.  (For the body
boundary itself the produced selector is the invalid `"body > "` and
resolves to nothing — see the counterexample.) -/
theorem C7_structural_path_under_body :
    ∀ (d : Doc) (pb : Pos) (s : List Nat),
      docWF d = true →
      (∀ q ∈ d.keys, (tagAt d q = "body" ↔ q = pb)) →
      s ≠ [] →
      hasPos d (pb ++ s) = true →
      (∃ segs, buildPathSelector d (pb ++ s) = Sel.pathDoc segs ∧ segs ≠ []) ∧
      docSelectAll d (buildPathSelector d (pb ++ s)) = [pb ++ s] := by
  intro d pb s hwf hbody hs hpos
  rcases List.eq_nil_or_concat s with rfl | ⟨s', i, rfl⟩
  · exact absurd rfl hs
  simp only [List.concat_eq_append] at hpos ⊢
  have hassoc : pb ++ (s' ++ [i]) = (pb ++ s') ++ [i] := by rw [List.append_assoc]
  have htagne : tagAt d ((pb ++ s') ++ [i]) ≠ "body" := by
    intro htag
    rw [hassoc] at hpos
    have heq := (hbody _ ((hasPos_iff_mem d _).mp hpos)).mp htag
    have hlen := congrArg List.length heq
    simp at hlen
  have hup : upSegs d (pb ++ (s' ++ [i])).reverse
      = segFor d ((pb ++ s') ++ [i]) :: upSegs d (pb ++ s').reverse := by
    rw [hassoc]
    exact upSegs_step htagne
  have hsegs_ne : (upSegs d (pb ++ (s' ++ [i])).reverse).reverse ≠ [] := by
    rw [hup]
    simp
  constructor
  · exact ⟨(upSegs d (pb ++ (s' ++ [i])).reverse).reverse, rfl, hsegs_ne⟩
  · unfold docSelectAll buildPathSelector
    apply filter_eq_singleton _ _ _ (docWF_nodup hwf) ((hasPos_iff_mem d _).mp hpos)
    intro x hx
    have hmSel : matchesSel d x
        (Sel.pathDoc (upSegs d (pb ++ (s' ++ [i])).reverse).reverse)
        = matchesRev d x
            (upSegs d (pb ++ (s' ++ [i])).reverse ++ [Seg.mk "body" none]) := by
      have hne' : ((upSegs d (pb ++ (s' ++ [i])).reverse).reverse).isEmpty = false := by
        cases hcase : (upSegs d (pb ++ (s' ++ [i])).reverse).reverse with
        | nil => exact absurd hcase hsegs_ne
        | cons a t => rfl
      show (if ((upSegs d (pb ++ (s' ++ [i])).reverse).reverse).isEmpty then false
            else matchesRev d x
              ((Seg.mk "body" none :: (upSegs d (pb ++ (s' ++ [i])).reverse).reverse).reverse))
          = _
      rw [hne']
      simp only [Bool.false_eq_true, if_false]
      rw [List.reverse_cons, List.reverse_reverse]
    rw [hmSel]
    exact upSegs_matchesRev hwf hbody (s' ++ [i]) hpos x

/-- C7 counterexample: for the `body` element itself (a boundary element the
claim includes), `buildPathSelector` produces the invalid selector
`"body > "`, which resolves to nothing rather than uniquely to the element. -/
theorem C7_structural_path_body_counterexample :
    tagAt exDocC7 [0] = "body" ∧ hasPos exDocC7 [0] = true ∧
    buildPathSelector exDocC7 [0] = Sel.pathDoc [] ∧
    Sel.render (buildPathSelector exDocC7 [0]) = "body > " ∧
    docSelectAll exDocC7 (buildPathSelector exDocC7 [0]) = [] ∧
    docSelectAll exDocC7 (buildPathSelector exDocC7 [0]) ≠ [[0]] := by
  decide

/-- Witness for the amended C7: the `div` strict descendant of `body` in the
example document resolves uniquely through its structural path. -/
theorem C7_structural_path_under_body_witness :
    docSelectAll exDocC7 (buildPathSelector exDocC7 [0, 0]) = [[0, 0]] := by
  have h := C7_structural_path_under_body exDocC7 [0] [0]
    (by decide) (by decide) (by simp) (by decide)
  exact h.2

end WebEditor
